import Mathlib

/-!
Verification development for the RealtimeDestructibleMesh cell-destruction
core: geometric shape model, grid cache, cell destruction system, batch
processor, structural integrity system and the chunk-graph plane helper.

Conventions of the embedding:
* Geometry is embedded over exact rationals; float expressions of the source
  are read with real-number semantics.  Square roots are eliminated by
  algebraically equivalent squared comparisons, noted at each definition.
* Cell ids are natural numbers; id sets (TSet of the source) are Finsets,
  with explicit lists wherever the source relies on the deterministic
  insertion-order iteration of a TSet.
* Machine integers that can overflow are wrapped explicitly (wrapInt32 and
  wrapInt16 below); everywhere else int32 arithmetic stays in range and is
  embedded as unbounded integers.
* Engine rotation application (FRotator::UnrotateVector) is engine code
  outside this repository; it is kept as an abstract parameter (EngineEnv),
  as is the mesh transform (an arbitrary point map standing for
  FTransform::TransformPosition).
* Worklist loops (BFS over queues) are embedded with an explicit fuel
  argument; the fuel chosen in each entry point is shown sufficient for the
  inputs the claims quantify over.
-/

namespace RealtimeDestruction

/-! ## Basic vector math over exact rationals -/

/-- Exact-rational stand-in for FVector. -/
structure Vec3 where
  x : ℚ
  y : ℚ
  z : ℚ
deriving DecidableEq, Repr

def Vec3.zero : Vec3 := ⟨0, 0, 0⟩

def Vec3.add (a b : Vec3) : Vec3 := ⟨a.x + b.x, a.y + b.y, a.z + b.z⟩

def Vec3.sub (a b : Vec3) : Vec3 := ⟨a.x - b.x, a.y - b.y, a.z - b.z⟩

def Vec3.smul (q : ℚ) (a : Vec3) : Vec3 := ⟨q * a.x, q * a.y, q * a.z⟩

def Vec3.dot (a b : Vec3) : ℚ := a.x * b.x + a.y * b.y + a.z * b.z

/-- Squared length; FVector::SizeSquared. -/
def Vec3.sizeSquared (a : Vec3) : ℚ := a.dot a

/-- Squared distance; FVector::DistSquared. -/
def Vec3.distSquared (a b : Vec3) : ℚ := (a.sub b).sizeSquared

/-- Exact-integer stand-in for FIntVector. -/
structure IntVec3 where
  x : ℤ
  y : ℤ
  z : ℤ
deriving DecidableEq, Repr

def IntVec3.zero : IntVec3 := ⟨0, 0, 0⟩

/-- The source multiplies a quantized FIntVector by 0.1f to get centimeters. -/
def IntVec3.toCm (v : IntVec3) : Vec3 :=
  ⟨(v.x : ℚ) * (1 / 10), (v.y : ℚ) * (1 / 10), (v.z : ℚ) * (1 / 10)⟩

/-- The source multiplies RotationCentidegrees by 0.01f to get degrees. -/
def IntVec3.toDegrees (v : IntVec3) : Vec3 :=
  ⟨(v.x : ℚ) * (1 / 100), (v.y : ℚ) * (1 / 100), (v.z : ℚ) * (1 / 100)⟩

/-- UE KINDA_SMALL_NUMBER, 1.e-4f. -/
def kindaSmallNumber : ℚ := 1 / 10000

/-- UE SMALL_NUMBER, 1.e-8f; the default squared-length tolerance of
FVector::GetSafeNormal. -/
def smallNumber : ℚ := 1 / 100000000

/-- FMath::RoundToInt, round to nearest with halves rounded up
(FloorToInt of x + 0.5). -/
def roundToInt (q : ℚ) : ℤ := ⌊q + 1 / 2⌋

/-- Two-complement wrap of an unbounded integer into int32 range, the effect
of storing into an int32 field. -/
def wrapInt32 (z : ℤ) : ℤ := (z + 2 ^ 31) % 2 ^ 32 - 2 ^ 31

/-- Two-complement wrap of an unbounded integer into int16 range, the effect
of the (int16)CellId casts in FDestructionBatchProcessor::ProcessBatch. -/
def wrapInt16 (z : ℤ) : ℤ := (z + 2 ^ 15) % 2 ^ 16 - 2 ^ 15

/-- Abstract model of the engine math this repository calls but does not
define: FRotator::UnrotateVector applied to a rotator given in degrees.
The algorithmic claims hold for every rotation model, so it is a parameter. -/
structure EngineEnv where
  unrotate : Vec3 → Vec3 → Vec3

/-- UE FRotator::NormalizeAxis: reduce an angle in degrees to (-180, 180]. -/
def normalizeAxis (a : ℚ) : ℚ :=
  let m := a - 360 * ⌊a / 360⌋
  if 180 < m then m - 360 else m

/-- UE FRotator::IsNearlyZero with the default KINDA_SMALL_NUMBER tolerance:
every normalized axis is within tolerance of zero. -/
def rotatorIsNearlyZero (r : Vec3) : Bool :=
  decide (|normalizeAxis r.x| ≤ kindaSmallNumber ∧
    |normalizeAxis r.y| ≤ kindaSmallNumber ∧
    |normalizeAxis r.z| ≤ kindaSmallNumber)

/-! ## Shape model (GridCellTypes.h / GridCellTypes.cpp) -/

inductive EDestructionShapeType where
  | Sphere
  | Box
  | Cylinder
  | Line
deriving DecidableEq, Repr

/-- Canonical floating-point impact shape, FCellDestructionShape.
Rotation is carried as (pitch, yaw, roll) in degrees. -/
structure FCellDestructionShape where
  shapeType : EDestructionShapeType
  center : Vec3
  radius : ℚ
  boxExtent : Vec3
  rotation : Vec3
  endPoint : Vec3
  lineThickness : ℚ
deriving DecidableEq, Repr

/-- Quantized impact shape, FQuantizedDestructionInput: int32 fields holding
positions in tenths of a unit and rotations in hundredths of a degree. -/
structure FQuantizedDestructionInput where
  shapeType : EDestructionShapeType
  centerMM : IntVec3
  radiusMM : ℤ
  boxExtentMM : IntVec3
  rotationCentidegrees : IntVec3
  endPointMM : IntVec3
  lineThicknessMM : ℤ
deriving DecidableEq, Repr

/-- Shared Line-case segment test of both ContainsPoint overloads
(GridCellTypes.cpp lines 48-71 and 226-249), embedded square-root-free:
the source computes LineLength as a square root, tests
LineLength below KINDA_SMALL_NUMBER, projects onto the normalized direction
and compares a point distance against the thickness.  Equivalently over exact
arithmetic: lenSq below the squared threshold; the raw dot product t compared
against 0 and lenSq (the projection scaled by the positive length); and the
squared distance to the closest point compared against the squared thickness
together with the sign of the thickness. -/
def lineSegmentContains (lineStart endPt : Vec3) (thickness : ℚ) (p : Vec3) : Bool :=
  let d := endPt.sub lineStart
  let lenSq := d.sizeSquared
  if lenSq < kindaSmallNumber * kindaSmallNumber then
    false
  else
    let t := (p.sub lineStart).dot d
    if t < 0 ∨ lenSq < t then
      false
    else
      let closest := lineStart.add (Vec3.smul (t / lenSq) d)
      decide (0 ≤ thickness ∧ Vec3.distSquared p closest ≤ thickness * thickness)

/-- FCellDestructionShape::ContainsPoint (GridCellTypes.cpp lines 10-75). -/
def FCellDestructionShape.ContainsPoint (env : EngineEnv)
    (s : FCellDestructionShape) (p : Vec3) : Bool :=
  match s.shapeType with
  | .Sphere => decide (Vec3.distSquared p s.center ≤ s.radius * s.radius)
  | .Box =>
      if rotatorIsNearlyZero s.rotation = false then
        let lp := env.unrotate s.rotation (p.sub s.center)
        decide (|lp.x| ≤ s.boxExtent.x ∧ |lp.y| ≤ s.boxExtent.y ∧
          |lp.z| ≤ s.boxExtent.z)
      else
        decide (|p.x - s.center.x| ≤ s.boxExtent.x ∧
          |p.y - s.center.y| ≤ s.boxExtent.y ∧
          |p.z - s.center.z| ≤ s.boxExtent.z)
  | .Cylinder =>
      let distXYSq := (p.x - s.center.x) ^ 2 + (p.y - s.center.y) ^ 2
      decide (distXYSq ≤ s.radius * s.radius ∧ |p.z - s.center.z| ≤ s.boxExtent.z)
  | .Line => lineSegmentContains s.center s.endPoint s.lineThickness p

/-- FQuantizedDestructionInput::ContainsPoint (GridCellTypes.cpp lines
182-253): identical structure, with all quantities first scaled back to
centimeters from the quantized integers. -/
def FQuantizedDestructionInput.ContainsPoint (env : EngineEnv)
    (s : FQuantizedDestructionInput) (p : Vec3) : Bool :=
  let center := s.centerMM.toCm
  let radiusCm : ℚ := (s.radiusMM : ℚ) * (1 / 10)
  let boxExtentCm := s.boxExtentMM.toCm
  match s.shapeType with
  | .Sphere => decide (Vec3.distSquared p center ≤ radiusCm * radiusCm)
  | .Box =>
      if s.rotationCentidegrees ≠ IntVec3.zero then
        let lp := env.unrotate s.rotationCentidegrees.toDegrees (p.sub center)
        decide (|lp.x| ≤ boxExtentCm.x ∧ |lp.y| ≤ boxExtentCm.y ∧
          |lp.z| ≤ boxExtentCm.z)
      else
        decide (|p.x - center.x| ≤ boxExtentCm.x ∧
          |p.y - center.y| ≤ boxExtentCm.y ∧
          |p.z - center.z| ≤ boxExtentCm.z)
  | .Cylinder =>
      let distXYSq := (p.x - center.x) ^ 2 + (p.y - center.y) ^ 2
      decide (distXYSq ≤ radiusCm * radiusCm ∧ |p.z - center.z| ≤ boxExtentCm.z)
  | .Line =>
      lineSegmentContains center s.endPointMM.toCm ((s.lineThicknessMM : ℚ) * (1 / 10)) p

/-- FQuantizedDestructionInput::FromDestructionShape (GridCellTypes.cpp lines
107-143): round every linear quantity times ten and every rotation component
times a hundred to the nearest integer, stored in int32 fields (wrapped). -/
def FQuantizedDestructionInput.FromDestructionShape (s : FCellDestructionShape) :
    FQuantizedDestructionInput where
  shapeType := s.shapeType
  centerMM := ⟨wrapInt32 (roundToInt (s.center.x * 10)),
    wrapInt32 (roundToInt (s.center.y * 10)), wrapInt32 (roundToInt (s.center.z * 10))⟩
  radiusMM := wrapInt32 (roundToInt (s.radius * 10))
  boxExtentMM := ⟨wrapInt32 (roundToInt (s.boxExtent.x * 10)),
    wrapInt32 (roundToInt (s.boxExtent.y * 10)), wrapInt32 (roundToInt (s.boxExtent.z * 10))⟩
  rotationCentidegrees := ⟨wrapInt32 (roundToInt (s.rotation.x * 100)),
    wrapInt32 (roundToInt (s.rotation.y * 100)), wrapInt32 (roundToInt (s.rotation.z * 100))⟩
  endPointMM := ⟨wrapInt32 (roundToInt (s.endPoint.x * 10)),
    wrapInt32 (roundToInt (s.endPoint.y * 10)), wrapInt32 (roundToInt (s.endPoint.z * 10))⟩
  lineThicknessMM := wrapInt32 (roundToInt (s.lineThickness * 10))

/-- FQuantizedDestructionInput::ToDestructionShape (GridCellTypes.cpp lines
145-180): scale every quantized integer back by 0.1 (linear) or 0.01
(rotation). -/
def FQuantizedDestructionInput.ToDestructionShape (q : FQuantizedDestructionInput) :
    FCellDestructionShape where
  shapeType := q.shapeType
  center := q.centerMM.toCm
  radius := (q.radiusMM : ℚ) * (1 / 10)
  boxExtent := q.boxExtentMM.toCm
  rotation := q.rotationCentidegrees.toDegrees
  endPoint := q.endPointMM.toCm
  lineThickness := (q.lineThicknessMM : ℚ) * (1 / 10)

/-! ## Grid cache (GridCellTypes.h / GridCellTypes.cpp)

The cache header is not part of the sources; its storage (existence and
anchor bitfields, sparse side tables) is abstracted into lookup functions,
and the row-major id linearization follows the specification formula
id = x + y * W + z * W * H. -/

/-- FGridCellCache with storage abstracted into total lookup functions. -/
structure FGridCellCache where
  gridSizeX : ℕ
  gridSizeY : ℕ
  gridSizeZ : ℕ
  gridOrigin : Vec3
  cellSize : Vec3
  cellExists : ℕ → Bool
  cellIsAnchor : ℕ → Bool
  cellNeighbors : ℕ → List ℕ

def FGridCellCache.GetTotalCellCount (g : FGridCellCache) : ℕ :=
  g.gridSizeX * g.gridSizeY * g.gridSizeZ

/-- Modelled from the spec: the id range check backing the guards of
IdToLocalCenter and IdToLocalMin; the header defining it is not in the
sources.  Negative int32 ids are excluded by the same check; ids are
embedded as naturals. -/
def FGridCellCache.IsValidCellId (g : FGridCellCache) (cellId : ℕ) : Bool :=
  decide (cellId < g.GetTotalCellCount)

/-- Modelled from the spec: row-major delinearization (x fastest), the
inverse of id = x + y * W + z * W * H. -/
def FGridCellCache.IdToCoord (g : FGridCellCache) (cellId : ℕ) : ℕ × ℕ × ℕ :=
  (cellId % g.gridSizeX, cellId / g.gridSizeX % g.gridSizeY,
    cellId / (g.gridSizeX * g.gridSizeY))

/-- FGridCellCache::IdToLocalCenter (GridCellTypes.cpp lines 565-578). -/
def FGridCellCache.IdToLocalCenter (g : FGridCellCache) (cellId : ℕ) : Vec3 :=
  if g.IsValidCellId cellId then
    let c := g.IdToCoord cellId
    ⟨g.gridOrigin.x + ((c.1 : ℚ) + 1 / 2) * g.cellSize.x,
      g.gridOrigin.y + ((c.2.1 : ℚ) + 1 / 2) * g.cellSize.y,
      g.gridOrigin.z + ((c.2.2 : ℚ) + 1 / 2) * g.cellSize.z⟩
  else
    Vec3.zero

/-- FGridCellCache::IdToWorldCenter; the mesh transform is the abstract
point map standing for FTransform::TransformPosition. -/
def FGridCellCache.IdToWorldCenter (g : FGridCellCache) (meshTransform : Vec3 → Vec3)
    (cellId : ℕ) : Vec3 :=
  meshTransform (g.IdToLocalCenter cellId)

/-- FGridCellCache::IdToLocalMin (GridCellTypes.cpp lines 586-599). -/
def FGridCellCache.IdToLocalMin (g : FGridCellCache) (cellId : ℕ) : Vec3 :=
  if g.IsValidCellId cellId then
    let c := g.IdToCoord cellId
    ⟨g.gridOrigin.x + (c.1 : ℚ) * g.cellSize.x,
      g.gridOrigin.y + (c.2.1 : ℚ) * g.cellSize.y,
      g.gridOrigin.z + (c.2.2 : ℚ) * g.cellSize.z⟩
  else
    Vec3.zero

/-- FGridCellCache::GetCellVertices (GridCellTypes.cpp lines 601-619):
the eight local-space corners, offsets chosen by the bits of the index. -/
def FGridCellCache.GetCellVertices (g : FGridCellCache) (cellId : ℕ) : List Vec3 :=
  let mn := g.IdToLocalMin cellId
  (List.range 8).map fun i =>
    ⟨mn.x + (if i % 2 = 1 then g.cellSize.x else 0),
      mn.y + (if i / 2 % 2 = 1 then g.cellSize.y else 0),
      mn.z + (if i / 4 % 2 = 1 then g.cellSize.z else 0)⟩

/-- Modelled from the spec: what the algorithmic claims assume of a valid,
fully built grid cache.  The IsValid() method of the source checks storage
cardinality invariants of the bitfield and sparse tables, which the
storage-abstracted embedding cannot express; a well-formed cache has
neighbor lists that reference existing in-range cells and the axis-aligned
neighbor relation of the grid is symmetric. -/
structure ValidCache (g : FGridCellCache) : Prop where
  neighbors_lt : ∀ c, c < g.GetTotalCellCount →
    ∀ n ∈ g.cellNeighbors c, n < g.GetTotalCellCount
  neighbors_exist : ∀ c, c < g.GetTotalCellCount →
    ∀ n ∈ g.cellNeighbors c, g.cellExists n = true
  neighbors_symm : ∀ c, c < g.GetTotalCellCount →
    ∀ n ∈ g.cellNeighbors c, c ∈ g.cellNeighbors n

/-! ## Worklist search shared by the BFS passes

FCellDestructionSystem::FindDisconnectedCells and GroupDetachedCells, and
FStructuralIntegritySystem::FindAllConnectedToAnchors_Internal and
BuildDetachedGroups, all run the same queue-and-visited-set search; only the
neighbor lookup and the admission test differ.  The shared loop below takes
both as parameters, records the dequeue order (used only by the grouping
passes) and carries explicit fuel; every entry point passes fuel shown
sufficient for its inputs. -/

/-- One dequeued node's neighbor scan: admit each neighbor that passes the
keep test and is not yet visited, appending it to the queue, exactly as the
inner loops of the source do. -/
def scanNeighbors (keep : ℕ → Bool) : List ℕ → Finset ℕ → List ℕ → Finset ℕ × List ℕ
  | [], visited, queue => (visited, queue)
  | n :: rest, visited, queue =>
      if keep n = true ∧ n ∉ visited then
        scanNeighbors keep rest (insert n visited) (queue ++ [n])
      else
        scanNeighbors keep rest visited queue

/-- The fuelled worklist loop: dequeue, scan neighbors, recurse; returns the
final visited set and the dequeue order. -/
def bfsLoop (neighbors : ℕ → List ℕ) (keep : ℕ → Bool) :
    ℕ → List ℕ → Finset ℕ → List ℕ → Finset ℕ × List ℕ
  | 0, _, visited, order => (visited, order)
  | _ + 1, [], visited, order => (visited, order)
  | fuel + 1, c :: queue, visited, order =>
      let s := scanNeighbors keep (neighbors c) visited queue
      bfsLoop neighbors keep fuel s.2 s.1 (order ++ [c])

/-! ## Cell destruction system (CellDestructionSystem.h / .cpp) -/

namespace FCellDestructionSystem

/-- The vertex-majority loop of IsCellDestroyed (CellDestructionSystem.cpp
lines 127-140): count vertices contained in the shape and return true the
moment the count reaches four. -/
def vertexMajorityLoop (env : EngineEnv) (shape : FQuantizedDestructionInput)
    (meshTransform : Vec3 → Vec3) : List Vec3 → ℕ → Bool
  | [], _ => false
  | v :: rest, count =>
      if shape.ContainsPoint env (meshTransform v) then
        if 4 ≤ count + 1 then true else vertexMajorityLoop env shape meshTransform rest (count + 1)
      else
        vertexMajorityLoop env shape meshTransform rest count

/-- FCellDestructionSystem::IsCellDestroyed (CellDestructionSystem.cpp lines
112-143): phase 1 tests the world center, phase 2 the eight world-space
vertices with the early-exit majority count. -/
def IsCellDestroyed (g : FGridCellCache) (cellId : ℕ)
    (shape : FQuantizedDestructionInput) (meshTransform : Vec3 → Vec3)
    (env : EngineEnv) : Bool :=
  if shape.ContainsPoint env (g.IdToWorldCenter meshTransform cellId) then
    true
  else
    vertexMajorityLoop env shape meshTransform (g.GetCellVertices cellId) 0

/-- FCellDestructionSystem::CalculateDestroyedCells (CellDestructionSystem.cpp
lines 87-110): scan every id, skip non-existing or already destroyed cells,
collect those IsCellDestroyed reports. -/
def CalculateDestroyedCells (g : FGridCellCache) (shape : FQuantizedDestructionInput)
    (meshTransform : Vec3 → Vec3) (env : EngineEnv)
    (destroyedCells : Finset ℕ) : List ℕ :=
  (List.range g.GetTotalCellCount).filter fun cellId =>
    g.cellExists cellId && decide (cellId ∉ destroyedCells) &&
      IsCellDestroyed g cellId shape meshTransform env

/-- The anchor seeding scan of FindDisconnectedCells (lines 157-166):
existing, anchored, not destroyed cells in ascending id order. -/
def anchorSeeds (g : FGridCellCache) (destroyedCells : Finset ℕ) : List ℕ :=
  (List.range g.GetTotalCellCount).filter fun cellId =>
    g.cellExists cellId && g.cellIsAnchor cellId && decide (cellId ∉ destroyedCells)

/-- FCellDestructionSystem::FindDisconnectedCells (CellDestructionSystem.cpp
lines 149-198): multi-source BFS from the anchor seeds blocking destroyed
cells, then every existing, non-destroyed, unvisited cell in ascending order.
The returned list is the insertion-order content of the returned TSet.
Fuel GetTotalCellCount covers the run: on a valid cache every enqueued id is
distinct and below the total, so at most that many dequeues happen. -/
def FindDisconnectedCells (g : FGridCellCache) (destroyedCells : Finset ℕ) : List ℕ :=
  let seeds := anchorSeeds g destroyedCells
  let connected := (bfsLoop g.cellNeighbors (fun n => decide (n ∉ destroyedCells))
    g.GetTotalCellCount seeds seeds.toFinset []).1
  (List.range g.GetTotalCellCount).filter fun cellId =>
    g.cellExists cellId && decide (cellId ∉ destroyedCells) && decide (cellId ∉ connected)

/-- The outer loop of GroupDetachedCells (lines 208-240): iterate the
disconnected set in its insertion order, flood-fill a new group from every
not-yet-visited start cell; the visited set persists across groups.  Fuel
for each flood fill is the disconnected count plus one, enough because every
enqueued cell is a distinct member of the disconnected set or the start. -/
def groupLoop (g : FGridCellCache) (disconnectedCells : List ℕ) :
    List ℕ → Finset ℕ → List (List ℕ) → List (List ℕ)
  | [], _, groups => groups
  | startCell :: rest, visited, groups =>
      if startCell ∈ visited then
        groupLoop g disconnectedCells rest visited groups
      else
        let r := bfsLoop g.cellNeighbors (fun n => decide (n ∈ disconnectedCells))
          (disconnectedCells.length + 1) [startCell] (insert startCell visited) []
        groupLoop g disconnectedCells rest r.1 (groups ++ [r.2])

/-- FCellDestructionSystem::GroupDetachedCells (CellDestructionSystem.cpp
lines 200-243).  The disconnected set is passed as the list of its elements
in TSet insertion order (ascending ids when produced by
FindDisconnectedCells); each group lists its members in dequeue order.  The
destroyedCells parameter of the source is unused by the body and omitted. -/
def GroupDetachedCells (g : FGridCellCache) (disconnectedCells : List ℕ) :
    List (List ℕ) :=
  groupLoop g disconnectedCells disconnectedCells ∅ []

/-- FCellDestructionSystem::CalculateGroupCenter (CellDestructionSystem.cpp
lines 249-266): arithmetic mean of the member world centers. -/
def CalculateGroupCenter (g : FGridCellCache) (cellIds : List ℕ)
    (meshTransform : Vec3 → Vec3) : Vec3 :=
  if cellIds.length = 0 then
    Vec3.zero
  else
    Vec3.smul (1 / (cellIds.length : ℚ))
      (cellIds.foldl (fun acc c => acc.add (g.IdToWorldCenter meshTransform c)) Vec3.zero)

end FCellDestructionSystem

/-! ## Destruction batch processor (CellDestructionSystem.h / .cpp)

The processor state that matters to the algorithmic claims is the pending
queue, the caller cell state (its destroyed set) and the debris id counter;
ProcessBatch is embedded as a pure function of those.  The missing-context
(null pointer) early exit concerns the wiring, not the algorithm, and the
claims quantify over calls with the context set.  The per-debris initial
velocity involves a square-root normalization (GetSafeNormal) and no claim
concerns it, so the event field is omitted from the embedding. -/

/-- FDetachedDebrisInfo: debris id, member cell ids narrowed to int16 by the
source's casts, and the group center. -/
structure FDetachedDebrisInfo where
  debrisId : ℕ
  cellIds : List ℤ
  initialLocation : Vec3
deriving DecidableEq, Repr

/-- FBatchedDestructionEvent. -/
structure FBatchedDestructionEvent where
  destructionInputs : List FQuantizedDestructionInput
  destroyedCellIds : List ℤ
  detachedDebris : List FDetachedDebrisInfo
deriving DecidableEq, Repr

namespace FDestructionBatchProcessor

open FCellDestructionSystem

/-- Phase 1 of ProcessBatch (CellDestructionSystem.cpp lines 382-393): every
pending input's destroyed cells, evaluated against the caller's current
destroyed set, accumulated into the NewlyDestroyed TSet.  The pair carries
the insertion-order list alongside the set. -/
def batchNewlyDestroyed (g : FGridCellCache) (meshTransform : Vec3 → Vec3)
    (env : EngineEnv) (pending : List FQuantizedDestructionInput)
    (destroyedCells : Finset ℕ) : List ℕ × Finset ℕ :=
  pending.foldl
    (fun acc input =>
      (CalculateDestroyedCells g input meshTransform env destroyedCells).foldl
        (fun a c => if c ∈ a.2 then a else (a.1 ++ [c], insert c a.2)) acc)
    ([], ∅)

/-- FDestructionBatchProcessor::ProcessBatch (CellDestructionSystem.cpp lines
366-463) as a function of the context, the pending queue, the caller
destroyed set and the debris id counter; returns the updated destroyed set,
the batch event and the updated counter. -/
def ProcessBatch (g : FGridCellCache) (meshTransform : Vec3 → Vec3) (env : EngineEnv)
    (pending : List FQuantizedDestructionInput) (destroyedCells : Finset ℕ)
    (debrisIdCounter : ℕ) : Finset ℕ × FBatchedDestructionEvent × ℕ :=
  let newly := batchNewlyDestroyed g meshTransform env pending destroyedCells
  if newly.1 = [] then
    (destroyedCells, ⟨pending, [], []⟩, debrisIdCounter)
  else
    let destroyed1 := destroyedCells ∪ newly.2
    let disconnected := FindDisconnectedCells g destroyed1
    let groups := GroupDetachedCells g disconnected
    let destroyed2 := groups.foldl (fun s grp => s ∪ grp.toFinset) destroyed1
    let debris := (List.range groups.length).map fun i =>
      let grp := groups.getD i []
      ({ debrisId := debrisIdCounter + i + 1
         cellIds := grp.map fun c : ℕ => wrapInt16 (c : ℤ)
         initialLocation := CalculateGroupCenter g grp meshTransform } : FDetachedDebrisInfo)
    let event : FBatchedDestructionEvent :=
      { destructionInputs := pending
        destroyedCellIds := (newly.1.map fun c : ℕ => wrapInt16 (c : ℤ)) ++
          (groups.map fun grp => grp.map fun c : ℕ => wrapInt16 (c : ℤ)).flatten
        detachedDebris := debris }
    (destroyed2, event, debrisIdCounter + groups.length)

end FDestructionBatchProcessor

/-! ## Structural integrity system (StructuralIntegritySystem.cpp)

The header declaring the Data record is not in the sources; the record is
modelled from the spec (cell states, destroyed set, anchor set, connectivity
cache with validity flag) with the accessor semantics visible in the
implementation file.  Locking is serialization only and has no functional
content; operations are embedded as pure state transformers. -/

inductive ECellStructuralState where
  | Connected
  | Detached
  | Destroyed
deriving DecidableEq, Repr

/-- Modelled from the spec: the whole-object Data snapshot guarded by the
lock, per section 4.5 of the specification. -/
structure FStructuralIntegrityData where
  cellCount : ℕ
  cellStates : ℕ → ECellStructuralState
  destroyedCellIds : Finset ℕ
  anchorCellIds : Finset ℕ
  bCacheValid : Bool
  connectedToAnchorCache : Finset ℕ

/-- Modelled from the spec: the id range check used by every guarded
operation of the system; negative int32 ids fail the same check and ids are
embedded as naturals. -/
def FStructuralIntegrityData.IsValidCellId (d : FStructuralIntegrityData)
    (cellId : ℕ) : Bool :=
  decide (cellId < d.cellCount)

/-- The full system state: the Data snapshot plus the flat neighbor,
position and triangle tables loaded at Initialize. -/
structure FStructuralIntegritySystem where
  data : FStructuralIntegrityData
  cellNeighbors : List (List ℕ)
  cellPositions : List Vec3
  cellTriangles : List (List ℕ)
  bInitialized : Bool
  nextGroupId : ℕ

/-- FDetachedCellGroup. -/
structure FDetachedCellGroup where
  groupId : ℕ
  cellIds : List ℕ
  centerOfMass : Vec3
  approximateMass : ℚ
  triangleIds : List ℕ
deriving DecidableEq, Repr

/-- FStructuralIntegrityResult. -/
structure FStructuralIntegrityResult where
  newlyDestroyedCellIds : List ℕ
  detachedGroups : List FDetachedCellGroup
  bStructureCollapsed : Bool
  totalDestroyedCount : ℕ
deriving DecidableEq, Repr

/-- The default-constructed result DestroyCells starts from. -/
def emptyIntegrityResult : FStructuralIntegrityResult :=
  ⟨[], [], false, 0⟩

/-- Ascending insertion of one element, for the id sorts of the source. -/
def insertAsc (x : ℕ) : List ℕ → List ℕ
  | [] => [x]
  | y :: ys => if x ≤ y then x :: y :: ys else y :: insertAsc x ys

/-- Ascending insertion sort, standing for the TArray Sort calls. -/
def sortAsc (l : List ℕ) : List ℕ := l.foldr insertAsc []

/-- Adjacent deduplication of a sorted list, the in-place unique pass of
CollectTriangleIds (StructuralIntegritySystem.cpp lines 546-555). -/
def dedupSorted : List ℕ → List ℕ
  | [] => []
  | [x] => [x]
  | x :: y :: r => if x = y then dedupSorted (y :: r) else x :: dedupSorted (y :: r)

namespace FStructuralIntegritySystem

/-- FStructuralIntegritySystem::DestroyCellInternal (lines 329-346): reject
invalid and already destroyed ids, otherwise mark the state Destroyed, add
to the destroyed set and invalidate the connectivity cache. -/
def DestroyCellInternal (sys : FStructuralIntegritySystem) (cellId : ℕ) :
    Bool × FStructuralIntegritySystem :=
  if sys.data.IsValidCellId cellId = false then
    (false, sys)
  else if cellId ∈ sys.data.destroyedCellIds then
    (false, sys)
  else
    (true, { sys with data := { sys.data with
        cellStates := fun i => if i = cellId then .Destroyed else sys.data.cellStates i
        destroyedCellIds := insert cellId sys.data.destroyedCellIds
        bCacheValid := false } })

/-- FStructuralIntegritySystem::FindAllConnectedToAnchors_Internal (lines
387-437): BFS from the sorted non-destroyed anchors over the flat neighbor
table, skipping destroyed cells; ids beyond the table have no neighbors. -/
def FindAllConnectedToAnchors_Internal (sys : FStructuralIntegritySystem) : Finset ℕ :=
  if sys.cellNeighbors.length = 0 ∨ sys.data.anchorCellIds.card = 0 then
    ∅
  else
    let seeds := (sys.data.anchorCellIds.sort (· ≤ ·)).filter
      fun a => decide (a ∉ sys.data.destroyedCellIds)
    (bfsLoop (fun c => sys.cellNeighbors.getD c [])
      (fun n => decide (n ∉ sys.data.destroyedCellIds))
      (sys.data.cellCount + seeds.length) seeds seeds.toFinset []).1

/-- FStructuralIntegritySystem::CalculateCenterOfMass (lines 505-523). -/
def CalculateCenterOfMass (sys : FStructuralIntegritySystem) (cellIds : List ℕ) : Vec3 :=
  if cellIds.length = 0 ∨ sys.cellPositions.length = 0 then
    Vec3.zero
  else
    Vec3.smul (1 / (cellIds.length : ℚ))
      (cellIds.foldl
        (fun acc c =>
          if c < sys.cellPositions.length then
            acc.add (sys.cellPositions.getD c Vec3.zero)
          else acc)
        Vec3.zero)

/-- FStructuralIntegritySystem::CollectTriangleIds (lines 525-558): append
every member's triangles, sort, deduplicate. -/
def CollectTriangleIds (sys : FStructuralIntegritySystem) (cellIds : List ℕ) : List ℕ :=
  if sys.cellTriangles.length = 0 then
    []
  else
    dedupSorted (sortAsc (cellIds.foldl
      (fun acc c =>
        if c < sys.cellTriangles.length then acc ++ sys.cellTriangles.getD c []
        else acc)
      []))

/-- The outer loop of BuildDetachedGroups (lines 456-500): BFS a group from
every unvisited start in ascending order, then sort the member list and
compute the group attributes; the group id counter threads through. -/
def buildGroupsLoop (sys : FStructuralIntegritySystem) (detachedSet : Finset ℕ)
    (fuel : ℕ) :
    List ℕ → Finset ℕ → List FDetachedCellGroup → ℕ → List FDetachedCellGroup × ℕ
  | [], _, groups, counter => (groups, counter)
  | s :: rest, visited, groups, counter =>
      if s ∈ visited then
        buildGroupsLoop sys detachedSet fuel rest visited groups counter
      else
        let r := bfsLoop (fun c => sys.cellNeighbors.getD c [])
          (fun n => decide (n ∈ detachedSet)) fuel [s] (insert s visited) []
        let sortedIds := sortAsc r.2
        let grp : FDetachedCellGroup :=
          { groupId := counter
            cellIds := sortedIds
            centerOfMass := sys.CalculateCenterOfMass sortedIds
            approximateMass := (sortedIds.length : ℚ)
            triangleIds := sys.CollectTriangleIds sortedIds }
        buildGroupsLoop sys detachedSet fuel rest r.1 (groups ++ [grp]) (counter + 1)

/-- FStructuralIntegritySystem::BuildDetachedGroups (lines 439-503). -/
def BuildDetachedGroups (sys : FStructuralIntegritySystem)
    (detachedCellIds : List ℕ) : List FDetachedCellGroup × FStructuralIntegritySystem :=
  if detachedCellIds.length = 0 ∨ sys.cellNeighbors.length = 0 then
    ([], sys)
  else
    let p := buildGroupsLoop sys detachedCellIds.toFinset (detachedCellIds.length + 1)
      (sortAsc detachedCellIds) ∅ [] sys.nextGroupId
    (p.1, { sys with nextGroupId := p.2 })

/-- FStructuralIntegritySystem::UpdateConnectivityAndFindDetached (lines
348-385): recompute the connectivity cache, mark every non-destroyed
unreached cell Detached and group the detached cells. -/
def UpdateConnectivityAndFindDetached (sys : FStructuralIntegritySystem) :
    List FDetachedCellGroup × FStructuralIntegritySystem :=
  if sys.cellNeighbors.length = 0 then
    ([], sys)
  else
    let connectedCells := sys.FindAllConnectedToAnchors_Internal
    let detachedCellIds := (List.range sys.data.cellCount).filter
      fun c => decide (c ∉ sys.data.destroyedCellIds) && decide (c ∉ connectedCells)
    let sys1 := { sys with data := { sys.data with
        connectedToAnchorCache := connectedCells
        bCacheValid := true
        cellStates := fun i =>
          if i ∈ detachedCellIds then .Detached else sys.data.cellStates i } }
    if detachedCellIds.length = 0 then
      ([], sys1)
    else
      sys1.BuildDetachedGroups detachedCellIds

/-- FStructuralIntegritySystem::DestroyCells (lines 176-220). -/
def DestroyCells (sys : FStructuralIntegritySystem) (cellIds : List ℕ) :
    FStructuralIntegrityResult × FStructuralIntegritySystem :=
  if sys.bInitialized = false then
    (emptyIntegrityResult, sys)
  else
    let p := cellIds.foldl
      (fun (acc : List ℕ × FStructuralIntegritySystem) c =>
        let r := acc.2.DestroyCellInternal c
        (if r.1 then acc.1 ++ [c] else acc.1, r.2))
      ([], sys)
    if p.1 = [] then
      (emptyIntegrityResult, p.2)
    else
      let u := p.2.UpdateConnectivityAndFindDetached
      let bAllAnchorsDestroyed :=
        decide (∀ a ∈ u.2.data.anchorCellIds, a ∈ u.2.data.destroyedCellIds)
      ({ newlyDestroyedCellIds := p.1
         detachedGroups := u.1
         bStructureCollapsed := bAllAnchorsDestroyed && decide (0 < u.2.data.anchorCellIds.card)
         totalDestroyedCount := u.2.data.destroyedCellIds.card }, u.2)

/-- FStructuralIntegritySystem::GetCellState (lines 233-243): invalid ids
read as Destroyed. -/
def GetCellState (sys : FStructuralIntegritySystem) (cellId : ℕ) : ECellStructuralState :=
  if sys.data.IsValidCellId cellId = false then
    .Destroyed
  else
    sys.data.cellStates cellId

/-- FStructuralIntegritySystem::IsCellConnectedToAnchor (lines 245-269):
invalid and destroyed ids read false; with a valid cache the cache decides;
with a stale cache the read path conservatively reports true. -/
def IsCellConnectedToAnchor (sys : FStructuralIntegritySystem) (cellId : ℕ) : Bool :=
  if sys.data.IsValidCellId cellId = false then
    false
  else if cellId ∈ sys.data.destroyedCellIds then
    false
  else if sys.data.bCacheValid then
    decide (cellId ∈ sys.data.connectedToAnchorCache)
  else
    true

/-- FStructuralIntegritySystem::GetCellWorldPosition (lines 283-293). -/
def GetCellWorldPosition (sys : FStructuralIntegritySystem) (cellId : ℕ) : Vec3 :=
  if sys.data.IsValidCellId cellId = false ∨ sys.cellPositions.length ≤ cellId then
    Vec3.zero
  else
    sys.cellPositions.getD cellId Vec3.zero

/-- FStructuralIntegritySystem::IsAnchor (lines 160-164). -/
def IsAnchor (sys : FStructuralIntegritySystem) (cellId : ℕ) : Bool :=
  decide (cellId ∈ sys.data.anchorCellIds)

end FStructuralIntegritySystem

/-! ## Chunk cell graph plane helper (RealDestructCellGraph.cpp)

HasBoundaryTrianglesOnPlane is embedded over exact rationals with the
projected 2D coordinates represented scaled by the positive length of the
respective (unnormalized) plane axis; every comparison of the source is
reproduced by an algebraically equivalent squared comparison, so the boolean
result and the selection of triangles agree with the real-number semantics
of the source.  The degenerate-axis guard of the source composes
GetSafeNormal (zero below squared length 1.e-8) with IsNearlyZero, which on
a unit vector is false; the composition is exactly a squared-length test
against SMALL_NUMBER.  The aggregated 2D bounds output is a pure function
of the returned triangle list and is not separately carried. -/

/-- FChunkDivisionPlaneRect. -/
structure FChunkDivisionPlaneRect where
  planeOrigin : Vec3
  planeNormal : Vec3
  rectCenter : Vec3
  rectAxisU : Vec3
  rectAxisV : Vec3
  halfExtentU : ℚ
  halfExtentV : ℚ
deriving DecidableEq, Repr

/-- FChunkBoundaryTriangle2D with coordinates scaled by the axis lengths. -/
structure FChunkBoundaryTriangle2D where
  p0 : ℚ × ℚ
  p1 : ℚ × ℚ
  p2 : ℚ × ℚ
deriving DecidableEq, Repr

namespace FRealDestructCellGraph

/-- A scaled coordinate w compared against bound b times the axis length
(b nonnegative): w is at most b times the root of lenSq.  Squared form used
because the axis length is a square root. -/
def scaledLE (w b lenSq : ℚ) : Bool :=
  decide (w ≤ 0 ∨ w ^ 2 ≤ b ^ 2 * lenSq)

/-- A scaled coordinate w compared against minus b times the axis length:
minus b times the root of lenSq is at most w. -/
def scaledGE (w b lenSq : ℚ) : Bool :=
  decide (0 ≤ w ∨ w ^ 2 ≤ b ^ 2 * lenSq)

/-- The per-triangle body of the loop of HasBoundaryTrianglesOnPlane
(RealDestructCellGraph.cpp lines 283-349): keep the triangle when all three
vertices lie within the plane tolerance and the projected 2D bounds overlap
the tolerance-extended rectangle. -/
def planeTriangle2D (plane : FChunkDivisionPlaneRect) (planeTol rectTol : ℚ)
    (tri : Vec3 × Vec3 × Vec3) : Option FChunkBoundaryTriangle2D :=
  let nrm := plane.planeNormal
  let axU := plane.rectAxisU
  let axV := plane.rectAxisV
  let absPlaneTol := |planeTol|
  let onPlane : Vec3 → Bool := fun pos =>
    decide ((nrm.dot (pos.sub plane.planeOrigin)) ^ 2 ≤ absPlaneTol ^ 2 * nrm.sizeSquared)
  if onPlane tri.1 && onPlane tri.2.1 && onPlane tri.2.2 then
    let uv : Vec3 → ℚ × ℚ := fun pos =>
      ((pos.sub plane.rectCenter).dot axU, (pos.sub plane.rectCenter).dot axV)
    let q0 := uv tri.1
    let q1 := uv tri.2.1
    let q2 := uv tri.2.2
    let maxU := |plane.halfExtentU| + |rectTol|
    let maxV := |plane.halfExtentV| + |rectTol|
    let minU2 := min q0.1 (min q1.1 q2.1)
    let maxU2 := max q0.1 (max q1.1 q2.1)
    let minV2 := min q0.2 (min q1.2 q2.2)
    let maxV2 := max q0.2 (max q1.2 q2.2)
    if scaledLE minU2 maxU axU.sizeSquared && scaledGE maxU2 maxU axU.sizeSquared &&
        scaledLE minV2 maxV axV.sizeSquared && scaledGE maxV2 maxV axV.sizeSquared then
      some ⟨q0, q1, q2⟩
    else
      none
  else
    none

/-- FRealDestructCellGraph::HasBoundaryTrianglesOnPlane
(RealDestructCellGraph.cpp lines 251-352).  The mesh is the triangle lookup
(none for ids failing IsTriangle); returns the boolean result and the kept
projected triangles. -/
def HasBoundaryTrianglesOnPlane (getTriangle : ℕ → Option (Vec3 × Vec3 × Vec3))
    (triangleIds : List ℕ) (plane : FChunkDivisionPlaneRect)
    (planeTol rectTol : ℚ) : Bool × List FChunkBoundaryTriangle2D :=
  if triangleIds.length = 0 then
    (false, [])
  else if plane.planeNormal.sizeSquared < smallNumber ∨
      plane.rectAxisU.sizeSquared < smallNumber ∨
      plane.rectAxisV.sizeSquared < smallNumber then
    (false, [])
  else
    let tris := triangleIds.filterMap fun trId =>
      (getTriangle trId).bind (planeTriangle2D plane planeTol rectTol)
    (decide (0 < tris.length), tris)

end FRealDestructCellGraph

/-! ## Specification-side predicates

Declarative reachability notions the BFS implementations are compared
against; they follow the wording of the specification (a path to an anchor
through non-destroyed cells along the stored neighbor relation). -/

/-- One step of the neighbor relation restricted to non-destroyed targets. -/
def NeighborStep (g : FGridCellCache) (destroyed : Finset ℕ) (a b : ℕ) : Prop :=
  b ∈ g.cellNeighbors a ∧ b ∉ destroyed

/-- An existing, in-range, anchored, non-destroyed cell. -/
def LiveAnchor (g : FGridCellCache) (destroyed : Finset ℕ) (a : ℕ) : Prop :=
  a < g.GetTotalCellCount ∧ g.cellExists a = true ∧ g.cellIsAnchor a = true ∧
    a ∉ destroyed

/-- The cell is connected to some live anchor through non-destroyed cells. -/
def AnchorConnected (g : FGridCellCache) (destroyed : Finset ℕ) (x : ℕ) : Prop :=
  ∃ a, LiveAnchor g destroyed a ∧
    Relation.ReflTransGen (NeighborStep g destroyed) a x

/-- One step of the neighbor relation restricted to a disconnected-cell
list, the edge relation of the debris grouping flood fill. -/
def DiscStep (g : FGridCellCache) (disconnectedCells : List ℕ) (a b : ℕ) : Prop :=
  b ∈ g.cellNeighbors a ∧ b ∈ disconnectedCells

/-- The heads of the member lists of a group list. -/
def headsOf (groups : List (List ℕ)) : List ℕ :=
  groups.filterMap List.head?

/-- What one debris group satisfies: it starts at its smallest member and
lists, without repetition, exactly the cells connected to that start cell
through edges staying inside the disconnected set. -/
def GroupOk (g : FGridCellCache) (disconnectedCells : List ℕ) (grp : List ℕ) : Prop :=
  ∃ s, grp.head? = some s ∧ grp.Nodup ∧
    (∀ y, y ∈ grp ↔ Relation.ReflTransGen (DiscStep g disconnectedCells) s y) ∧
    ∀ y ∈ grp, s ≤ y

/-- All cells some input of the batch destroys, regardless of the current
destroyed set: existing in-range cells passing IsCellDestroyed for at least
one pending input. -/
def HitSet (g : FGridCellCache) (meshTransform : Vec3 → Vec3) (env : EngineEnv)
    (pending : List FQuantizedDestructionInput) : Finset ℕ :=
  (Finset.range g.GetTotalCellCount).filter fun c =>
    g.cellExists c = true ∧
      pending.any (fun s => FCellDestructionSystem.IsCellDestroyed g c s meshTransform env) = true

/-- The destroyed-set transformer of one ProcessBatch call, written
declaratively: nothing newly hit leaves the state alone, otherwise the hit
cells are added and every cell then disconnected from the anchors is added
as well. -/
def batchStepSet (g : FGridCellCache) (meshTransform : Vec3 → Vec3) (env : EngineEnv)
    (pending : List FQuantizedDestructionInput) (destroyed : Finset ℕ) : Finset ℕ :=
  if HitSet g meshTransform env pending \ destroyed = ∅ then
    destroyed
  else
    destroyed ∪ HitSet g meshTransform env pending ∪
      (FCellDestructionSystem.FindDisconnectedCells g
        (destroyed ∪ HitSet g meshTransform env pending)).toFinset

/-! ## Concrete fixtures for witnesses and counterexamples -/

/-- Trivial rotation model: ignore the rotator. -/
def idEnv : EngineEnv := ⟨fun _ v => v⟩

/-- Identity mesh transform. -/
def idTransform : Vec3 → Vec3 := fun v => v

/-- Neighbor table of a full 3 by 3 by 1 grid, ascending lists. -/
def exNbrs : ℕ → List ℕ
  | 0 => [1, 3]
  | 1 => [0, 2, 4]
  | 2 => [1, 5]
  | 3 => [0, 4, 6]
  | 4 => [1, 3, 5, 7]
  | 5 => [2, 4, 8]
  | 6 => [3, 7]
  | 7 => [4, 6, 8]
  | 8 => [5, 7]
  | _ => []

/-- A full 3 by 3 by 1 grid cache with no anchors. -/
def exCache : FGridCellCache :=
  { gridSizeX := 3
    gridSizeY := 3
    gridSizeZ := 1
    gridOrigin := Vec3.zero
    cellSize := ⟨1, 1, 1⟩
    cellExists := fun c => decide (c < 9)
    cellIsAnchor := fun _ => false
    cellNeighbors := exNbrs }

/-- The same grid with cell 0 anchored. -/
def anCache : FGridCellCache :=
  { exCache with cellIsAnchor := fun c => decide (c = 0) }

/-- A quantized sphere of radius 5 at the origin. -/
def exSphere : FQuantizedDestructionInput :=
  { shapeType := .Sphere
    centerMM := ⟨0, 0, 0⟩
    radiusMM := 50
    boxExtentMM := ⟨0, 0, 0⟩
    rotationCentidegrees := ⟨0, 0, 0⟩
    endPointMM := ⟨0, 0, 0⟩
    lineThicknessMM := 0 }

/-- A two-cell structural integrity system with cell 0 anchored. -/
def exSys : FStructuralIntegritySystem :=
  { data :=
      { cellCount := 2
        cellStates := fun _ => .Connected
        destroyedCellIds := {1}
        anchorCellIds := {0}
        bCacheValid := false
        connectedToAnchorCache := ∅ }
    cellNeighbors := [[1], [0]]
    cellPositions := [Vec3.zero, ⟨1, 0, 0⟩]
    cellTriangles := [[0], [1]]
    bInitialized := true
    nextGroupId := 0 }

/-- A degenerate quantized line shape: start and end coincide. -/
def exDegenerateLine : FQuantizedDestructionInput :=
  { shapeType := .Line
    centerMM := ⟨30, 0, 0⟩
    radiusMM := 0
    boxExtentMM := ⟨0, 0, 0⟩
    rotationCentidegrees := ⟨0, 0, 0⟩
    endPointMM := ⟨30, 0, 0⟩
    lineThicknessMM := 20 }

/-- A degenerate canonical line shape: start and end coincide. -/
def exDegenerateLineShape : FCellDestructionShape :=
  { shapeType := .Line
    center := ⟨3, 0, 0⟩
    radius := 0
    boxExtent := Vec3.zero
    rotation := Vec3.zero
    endPoint := ⟨3, 0, 0⟩
    lineThickness := 2 }

/-- A division plane whose U axis is degenerate. -/
def exDegeneratePlane : FChunkDivisionPlaneRect :=
  { planeOrigin := Vec3.zero
    planeNormal := ⟨0, 0, 1⟩
    rectCenter := Vec3.zero
    rectAxisU := ⟨0, 0, 0⟩
    rectAxisV := ⟨0, 1, 0⟩
    halfExtentU := 1
    halfExtentV := 1 }

/-- A one-triangle lookup for the degenerate-plane witness. -/
def exTriLookup : ℕ → Option (Vec3 × Vec3 × Vec3) :=
  fun _ => some (⟨0, 0, 0⟩, ⟨1, 0, 0⟩, ⟨0, 1, 0⟩)

/-- A shape with non-representable fractional coordinates, exercising the
quantization round trip. -/
def exRoundTripShape : FCellDestructionShape :=
  { shapeType := .Sphere
    center := ⟨1 / 3, -2 / 7, 5⟩
    radius := 11 / 3
    boxExtent := ⟨1 / 6, 2, 3⟩
    rotation := ⟨1 / 9, 45, -1 / 11⟩
    endPoint := ⟨100, 1 / 13, 0⟩
    lineThickness := 7 / 3 }

/-! # Theorems -/

/-! ## Rounding and integer-wrap facts -/

theorem roundToInt_err (q : ℚ) : |(roundToInt q : ℚ) - q| ≤ 1 / 2 := by
  unfold roundToInt
  rw [abs_le]
  constructor
  · have h := Int.sub_one_lt_floor (q + 1 / 2)
    push_cast at h ⊢
    linarith
  · have h := Int.floor_le (q + 1 / 2)
    push_cast at h ⊢
    linarith

theorem wrapInt32_eq_self {n : ℤ} (h1 : -2 ^ 31 ≤ n) (h2 : n < 2 ^ 31) :
    wrapInt32 n = n := by
  unfold wrapInt32
  omega

theorem wrapInt16_ne_self {t : ℤ} (h : 2 ^ 15 ≤ t) : wrapInt16 t ≠ t := by
  unfold wrapInt16
  omega

theorem wrapInt16_facts (t : ℤ) :
    (wrapInt16 t - t) % 2 ^ 16 = 0 ∧ -2 ^ 15 ≤ wrapInt16 t ∧ wrapInt16 t < 2 ^ 15 := by
  unfold wrapInt16
  omega

/-- One quantized field round trip: scaling by k, rounding to the nearest
integer, storing in int32 and scaling back moves the value by at most half
the quantization step, as long as the scaled value stays in int32 range. -/
theorem quantFieldRoundTrip {x k : ℚ} (hk : 0 < k) (hb : |x * k| ≤ 10 ^ 9) :
    |(wrapInt32 (roundToInt (x * k)) : ℚ) * (1 / k) - x| ≤ 1 / (2 * k) := by
  have herr := roundToInt_err (x * k)
  have habs : |(roundToInt (x * k) : ℚ)| ≤ 10 ^ 9 + 1 / 2 := by
    calc |(roundToInt (x * k) : ℚ)|
        = |(roundToInt (x * k) : ℚ) - x * k + x * k| := by ring_nf
      _ ≤ |(roundToInt (x * k) : ℚ) - x * k| + |x * k| := abs_add _ _
      _ ≤ 1 / 2 + 10 ^ 9 := add_le_add herr hb
      _ = 10 ^ 9 + 1 / 2 := by ring
  have hw : wrapInt32 (roundToInt (x * k)) = roundToInt (x * k) := by
    rw [abs_le] at habs
    apply wrapInt32_eq_self
    · have : (-(2 ^ 31) : ℚ) ≤ (roundToInt (x * k) : ℚ) := by linarith [habs.1]
      exact_mod_cast this
    · have : ((roundToInt (x * k) : ℚ)) < 2 ^ 31 := by linarith [habs.2]
      exact_mod_cast this
  rw [hw]
  have hkne : k ≠ 0 := ne_of_gt hk
  have heq : (roundToInt (x * k) : ℚ) * (1 / k) - x
      = ((roundToInt (x * k) : ℚ) - x * k) * (1 / k) := by
    field_simp
    ring
  rw [heq, abs_mul, abs_of_pos (by positivity : (0 : ℚ) < 1 / k)]
  calc |(roundToInt (x * k) : ℚ) - x * k| * (1 / k) ≤ (1 / 2) * (1 / k) := by
        apply mul_le_mul_of_nonneg_right herr
        positivity
    _ = 1 / (2 * k) := by ring

theorem boundScale10 {x : ℚ} (h : |x| ≤ 10 ^ 8) : |x * 10| ≤ 10 ^ 9 := by
  calc |x * 10| = |x| * 10 := by rw [abs_mul]; norm_num
    _ ≤ 10 ^ 8 * 10 := by linarith
    _ = 10 ^ 9 := by norm_num

theorem boundScale100 {x : ℚ} (h : |x| ≤ 10 ^ 7) : |x * 100| ≤ 10 ^ 9 := by
  calc |x * 100| = |x| * 100 := by rw [abs_mul]; norm_num
    _ ≤ 10 ^ 7 * 100 := by linarith
    _ = 10 ^ 9 := by norm_num

/-- Linear-field round trip at the 0.1-unit step: at most 0.05 off. -/
theorem linearFieldRoundTrip {x : ℚ} (h : |x| ≤ 10 ^ 8) :
    |(wrapInt32 (roundToInt (x * 10)) : ℚ) * (1 / 10) - x| ≤ 1 / 20 := by
  have := quantFieldRoundTrip (x := x) (k := 10) (by norm_num) (boundScale10 h)
  linarith [this]

/-- Rotation-field round trip at the 0.01-degree step: at most 0.005 off. -/
theorem rotationFieldRoundTrip {x : ℚ} (h : |x| ≤ 10 ^ 7) :
    |(wrapInt32 (roundToInt (x * 100)) : ℚ) * (1 / 100) - x| ≤ 1 / 200 := by
  have := quantFieldRoundTrip (x := x) (k := 100) (by norm_num) (boundScale100 h)
  linarith [this]

/-- C5: for every destruction shape whose positions, extents and rotations
are within a bounded simulation range, the round trip
ToDestructionShape(FromDestructionShape(s)) reproduces every linear quantity
of s (center, radius, box extent, end point, line thickness) within 0.05
linear units and every rotation component within 0.005 degrees, half the
fixed-point quantization step under round-to-nearest. -/
theorem quantizationRoundTrip_withinHalfStep (s : FCellDestructionShape)
    (hcx : |s.center.x| ≤ 10 ^ 8) (hcy : |s.center.y| ≤ 10 ^ 8)
    (hcz : |s.center.z| ≤ 10 ^ 8) (hr : |s.radius| ≤ 10 ^ 8)
    (hbx : |s.boxExtent.x| ≤ 10 ^ 8) (hby : |s.boxExtent.y| ≤ 10 ^ 8)
    (hbz : |s.boxExtent.z| ≤ 10 ^ 8) (hex : |s.endPoint.x| ≤ 10 ^ 8)
    (hey : |s.endPoint.y| ≤ 10 ^ 8) (hez : |s.endPoint.z| ≤ 10 ^ 8)
    (ht : |s.lineThickness| ≤ 10 ^ 8) (hrx : |s.rotation.x| ≤ 10 ^ 7)
    (hry : |s.rotation.y| ≤ 10 ^ 7) (hrz : |s.rotation.z| ≤ 10 ^ 7) :
    (FQuantizedDestructionInput.FromDestructionShape s).ToDestructionShape.shapeType
        = s.shapeType ∧
    |(FQuantizedDestructionInput.FromDestructionShape s).ToDestructionShape.center.x
        - s.center.x| ≤ 1 / 20 ∧
    |(FQuantizedDestructionInput.FromDestructionShape s).ToDestructionShape.center.y
        - s.center.y| ≤ 1 / 20 ∧
    |(FQuantizedDestructionInput.FromDestructionShape s).ToDestructionShape.center.z
        - s.center.z| ≤ 1 / 20 ∧
    |(FQuantizedDestructionInput.FromDestructionShape s).ToDestructionShape.radius
        - s.radius| ≤ 1 / 20 ∧
    |(FQuantizedDestructionInput.FromDestructionShape s).ToDestructionShape.boxExtent.x
        - s.boxExtent.x| ≤ 1 / 20 ∧
    |(FQuantizedDestructionInput.FromDestructionShape s).ToDestructionShape.boxExtent.y
        - s.boxExtent.y| ≤ 1 / 20 ∧
    |(FQuantizedDestructionInput.FromDestructionShape s).ToDestructionShape.boxExtent.z
        - s.boxExtent.z| ≤ 1 / 20 ∧
    |(FQuantizedDestructionInput.FromDestructionShape s).ToDestructionShape.endPoint.x
        - s.endPoint.x| ≤ 1 / 20 ∧
    |(FQuantizedDestructionInput.FromDestructionShape s).ToDestructionShape.endPoint.y
        - s.endPoint.y| ≤ 1 / 20 ∧
    |(FQuantizedDestructionInput.FromDestructionShape s).ToDestructionShape.endPoint.z
        - s.endPoint.z| ≤ 1 / 20 ∧
    |(FQuantizedDestructionInput.FromDestructionShape s).ToDestructionShape.lineThickness
        - s.lineThickness| ≤ 1 / 20 ∧
    |(FQuantizedDestructionInput.FromDestructionShape s).ToDestructionShape.rotation.x
        - s.rotation.x| ≤ 1 / 200 ∧
    |(FQuantizedDestructionInput.FromDestructionShape s).ToDestructionShape.rotation.y
        - s.rotation.y| ≤ 1 / 200 ∧
    |(FQuantizedDestructionInput.FromDestructionShape s).ToDestructionShape.rotation.z
        - s.rotation.z| ≤ 1 / 200 := by
  refine ⟨rfl, ?_, ?_, ?_, ?_, ?_, ?_, ?_, ?_, ?_, ?_, ?_, ?_, ?_, ?_⟩ <;>
    simp only [FQuantizedDestructionInput.FromDestructionShape,
      FQuantizedDestructionInput.ToDestructionShape, IntVec3.toCm, IntVec3.toDegrees]
  exacts [linearFieldRoundTrip hcx, linearFieldRoundTrip hcy,
    linearFieldRoundTrip hcz, linearFieldRoundTrip hr, linearFieldRoundTrip hbx,
    linearFieldRoundTrip hby, linearFieldRoundTrip hbz, linearFieldRoundTrip hex,
    linearFieldRoundTrip hey, linearFieldRoundTrip hez, linearFieldRoundTrip ht,
    rotationFieldRoundTrip hrx, rotationFieldRoundTrip hry, rotationFieldRoundTrip hrz]

/-- Witness for C5 at a shape with non-representable coordinates. -/
theorem quantizationRoundTrip_withinHalfStep_witness :
    |exRoundTripShape.center.x| ≤ 10 ^ 8 ∧
    |(FQuantizedDestructionInput.FromDestructionShape exRoundTripShape).ToDestructionShape.center.x
        - exRoundTripShape.center.x| ≤ 1 / 20 ∧
    |(FQuantizedDestructionInput.FromDestructionShape exRoundTripShape).ToDestructionShape.rotation.y
        - exRoundTripShape.rotation.y| ≤ 1 / 200 := by
  have h := quantizationRoundTrip_withinHalfStep exRoundTripShape
    (by norm_num [exRoundTripShape, abs_le]) (by norm_num [exRoundTripShape, abs_le])
    (by norm_num [exRoundTripShape, abs_le]) (by norm_num [exRoundTripShape, abs_le])
    (by norm_num [exRoundTripShape, abs_le]) (by norm_num [exRoundTripShape, abs_le])
    (by norm_num [exRoundTripShape, abs_le]) (by norm_num [exRoundTripShape, abs_le])
    (by norm_num [exRoundTripShape, abs_le]) (by norm_num [exRoundTripShape, abs_le])
    (by norm_num [exRoundTripShape, abs_le]) (by norm_num [exRoundTripShape, abs_le])
    (by norm_num [exRoundTripShape, abs_le]) (by norm_num [exRoundTripShape, abs_le])
  obtain ⟨-, h1, -, -, -, -, -, -, -, -, -, -, -, hy, -⟩ := h
  exact ⟨by norm_num [exRoundTripShape, abs_le], h1, hy⟩

/-! ## Degenerate geometry (C9) -/

/-- C9: degenerate geometry never divides by zero: a Line shape whose start
and end coincide (squared length below the squared small-number threshold)
contains no point, in both the canonical and the quantized containment
tests, and a division plane whose normal or U or V axis normalizes to
near-zero length makes the boundary-triangle extraction abort, returning
false with no triangles. -/
theorem degenerateGeometry_safe :
    (∀ (env : EngineEnv) (s : FCellDestructionShape) (p : Vec3),
      s.shapeType = .Line →
      Vec3.distSquared s.endPoint s.center < kindaSmallNumber * kindaSmallNumber →
      s.ContainsPoint env p = false) ∧
    (∀ (env : EngineEnv) (s : FQuantizedDestructionInput) (p : Vec3),
      s.shapeType = .Line →
      Vec3.distSquared s.endPointMM.toCm s.centerMM.toCm
        < kindaSmallNumber * kindaSmallNumber →
      s.ContainsPoint env p = false) ∧
    (∀ (getTriangle : ℕ → Option (Vec3 × Vec3 × Vec3)) (triangleIds : List ℕ)
      (plane : FChunkDivisionPlaneRect) (planeTol rectTol : ℚ),
      (plane.planeNormal.sizeSquared < smallNumber ∨
        plane.rectAxisU.sizeSquared < smallNumber ∨
        plane.rectAxisV.sizeSquared < smallNumber) →
      FRealDestructCellGraph.HasBoundaryTrianglesOnPlane getTriangle triangleIds
        plane planeTol rectTol = (false, [])) := by
  refine ⟨?_, ?_, ?_⟩
  · intro env s p hty hdeg
    simp only [Vec3.distSquared] at hdeg
    simp only [FCellDestructionShape.ContainsPoint, hty, lineSegmentContains]
    rw [if_pos hdeg]
  · intro env s p hty hdeg
    simp only [Vec3.distSquared] at hdeg
    simp only [FQuantizedDestructionInput.ContainsPoint, hty, lineSegmentContains]
    rw [if_pos hdeg]
  · intro getTriangle triangleIds plane planeTol rectTol hdeg
    unfold FRealDestructCellGraph.HasBoundaryTrianglesOnPlane
    by_cases h0 : triangleIds.length = 0
    · rw [if_pos h0]
    · rw [if_neg h0, if_pos hdeg]

/-- Witness for C9: a coincident-endpoint line shape (both forms) and a
degenerate-axis plane, at concrete points. -/
theorem degenerateGeometry_safe_witness :
    (exDegenerateLineShape.shapeType = .Line ∧
      Vec3.distSquared exDegenerateLineShape.endPoint exDegenerateLineShape.center
        < kindaSmallNumber * kindaSmallNumber ∧
      exDegenerateLineShape.ContainsPoint idEnv ⟨3, 0, 0⟩ = false) ∧
    (exDegenerateLine.shapeType = .Line ∧
      exDegenerateLine.ContainsPoint idEnv ⟨3, 0, 0⟩ = false) ∧
    (exDegeneratePlane.rectAxisU.sizeSquared < smallNumber ∧
      FRealDestructCellGraph.HasBoundaryTrianglesOnPlane exTriLookup [0]
        exDegeneratePlane (1 / 100) (1 / 100) = (false, [])) := by
  obtain ⟨h1, h2, h3⟩ := degenerateGeometry_safe
  have hda : Vec3.distSquared exDegenerateLineShape.endPoint exDegenerateLineShape.center
      < kindaSmallNumber * kindaSmallNumber := by
    norm_num [exDegenerateLineShape, Vec3.distSquared, Vec3.sizeSquared, Vec3.sub,
      Vec3.dot, kindaSmallNumber]
  have hdb : Vec3.distSquared exDegenerateLine.endPointMM.toCm exDegenerateLine.centerMM.toCm
      < kindaSmallNumber * kindaSmallNumber := by
    norm_num [exDegenerateLine, Vec3.distSquared, Vec3.sizeSquared, Vec3.sub,
      Vec3.dot, IntVec3.toCm, kindaSmallNumber]
  have hdc : exDegeneratePlane.rectAxisU.sizeSquared < smallNumber := by
    norm_num [exDegeneratePlane, Vec3.sizeSquared, Vec3.dot, smallNumber]
  refine ⟨⟨rfl, hda, ?_⟩, ⟨rfl, ?_⟩, ⟨hdc, ?_⟩⟩
  · exact h1 idEnv exDegenerateLineShape ⟨3, 0, 0⟩ rfl hda
  · exact h2 idEnv exDegenerateLine ⟨3, 0, 0⟩ rfl hdb
  · exact h3 exTriLookup [0] exDegeneratePlane (1 / 100) (1 / 100) (Or.inr (Or.inl hdc))

/-! ## Neutral results for out-of-range ids (C8) -/

/-- C8: every query at an out-of-range cell id returns a neutral value:
GetCellState reads Destroyed, GetCellWorldPosition and the cache local
center read the zero vector, IsCellConnectedToAnchor reads false, and
IsAnchor reads false whenever the anchor set respects the id range (which
every anchor-adding operation enforces). -/
theorem invalidCellId_neutralResults (sys : FStructuralIntegritySystem)
    (g : FGridCellCache) (cellId : ℕ)
    (hsys : sys.data.cellCount ≤ cellId)
    (hg : g.GetTotalCellCount ≤ cellId)
    (hanch : ∀ a ∈ sys.data.anchorCellIds, a < sys.data.cellCount) :
    sys.GetCellState cellId = .Destroyed ∧
    sys.GetCellWorldPosition cellId = Vec3.zero ∧
    g.IdToLocalCenter cellId = Vec3.zero ∧
    sys.IsCellConnectedToAnchor cellId = false ∧
    sys.IsAnchor cellId = false := by
  have hvd : sys.data.IsValidCellId cellId = false := by
    simp [FStructuralIntegrityData.IsValidCellId, Nat.not_lt.mpr hsys]
  have hvg : g.IsValidCellId cellId = false := by
    simp [FGridCellCache.IsValidCellId, Nat.not_lt.mpr hg]
  refine ⟨?_, ?_, ?_, ?_, ?_⟩
  · simp [FStructuralIntegritySystem.GetCellState, hvd]
  · simp [FStructuralIntegritySystem.GetCellWorldPosition, hvd]
  · simp [FGridCellCache.IdToLocalCenter, hvg]
  · simp [FStructuralIntegritySystem.IsCellConnectedToAnchor, hvd]
  · simp only [FStructuralIntegritySystem.IsAnchor, decide_eq_false_iff_not]
    intro hmem
    exact absurd (hanch cellId hmem) (Nat.not_lt.mpr hsys)

/-- Witness for C8 at a concrete small system and the out-of-range id 9000. -/
theorem invalidCellId_neutralResults_witness :
    (exSys.data.cellCount ≤ 9000 ∧ exCache.GetTotalCellCount ≤ 9000) ∧
    exSys.GetCellState 9000 = .Destroyed ∧
    exSys.GetCellWorldPosition 9000 = Vec3.zero ∧
    exCache.IdToLocalCenter 9000 = Vec3.zero ∧
    exSys.IsCellConnectedToAnchor 9000 = false ∧
    exSys.IsAnchor 9000 = false := by
  have h := invalidCellId_neutralResults exSys exCache 9000 (by decide) (by decide)
    (by decide)
  exact ⟨⟨by decide, by decide⟩, h.1, h.2.1, h.2.2.1, h.2.2.2.1, h.2.2.2.2⟩

/-! ## Structural-integrity preservation lemmas -/

theorem DestroyCellInternal_already {sys : FStructuralIntegritySystem} {c : ℕ}
    (h : c ∈ sys.data.destroyedCellIds) :
    sys.DestroyCellInternal c = (false, sys) := by
  unfold FStructuralIntegritySystem.DestroyCellInternal
  by_cases hv : sys.data.IsValidCellId c = false
  · rw [if_pos hv]
  · rw [if_neg hv, if_pos h]

theorem destroyFold_already {sys : FStructuralIntegritySystem} (ids : List ℕ)
    (acc : List ℕ) (h : ∀ c ∈ ids, c ∈ sys.data.destroyedCellIds) :
    ids.foldl
      (fun (acc : List ℕ × FStructuralIntegritySystem) c =>
        let r := acc.2.DestroyCellInternal c
        (if r.1 then acc.1 ++ [c] else acc.1, r.2))
      (acc, sys) = (acc, sys) := by
  induction ids generalizing acc with
  | nil => rfl
  | cons c rest ih =>
      rw [List.foldl_cons]
      have hc := DestroyCellInternal_already (h c (List.mem_cons_self c rest))
      simp only [hc, Bool.false_eq_true, if_false]
      exact ih acc fun x hx => h x (List.mem_cons_of_mem c hx)

theorem DestroyCellInternal_anchors (sys : FStructuralIntegritySystem) (c : ℕ) :
    (sys.DestroyCellInternal c).2.data.anchorCellIds = sys.data.anchorCellIds := by
  unfold FStructuralIntegritySystem.DestroyCellInternal
  by_cases hv : sys.data.IsValidCellId c = false
  · rw [if_pos hv]
  · rw [if_neg hv]
    by_cases hm : c ∈ sys.data.destroyedCellIds
    · rw [if_pos hm]
    · rw [if_neg hm]

theorem destroyFold_anchors (sys : FStructuralIntegritySystem) (ids : List ℕ)
    (acc : List ℕ) :
    (ids.foldl
      (fun (acc : List ℕ × FStructuralIntegritySystem) c =>
        let r := acc.2.DestroyCellInternal c
        (if r.1 then acc.1 ++ [c] else acc.1, r.2))
      (acc, sys)).2.data.anchorCellIds = sys.data.anchorCellIds := by
  induction ids generalizing acc sys with
  | nil => rfl
  | cons c rest ih =>
      rw [List.foldl_cons]
      have h1 := DestroyCellInternal_anchors sys c
      by_cases hb : (sys.DestroyCellInternal c).1 = true
      · simp only [hb, if_true]
        rw [ih ((sys.DestroyCellInternal c).2) (acc ++ [c])]
        exact h1
      · simp only [Bool.not_eq_true] at hb
        simp only [hb, Bool.false_eq_true, if_false]
        rw [ih ((sys.DestroyCellInternal c).2) acc]
        exact h1

theorem BuildDetachedGroups_data (sys : FStructuralIntegritySystem) (l : List ℕ) :
    (sys.BuildDetachedGroups l).2.data = sys.data := by
  unfold FStructuralIntegritySystem.BuildDetachedGroups
  by_cases h : l.length = 0 ∨ sys.cellNeighbors.length = 0
  · rw [if_pos h]
  · rw [if_neg h]

theorem Update_destroyed_anchors (sys : FStructuralIntegritySystem) :
    (sys.UpdateConnectivityAndFindDetached).2.data.destroyedCellIds
        = sys.data.destroyedCellIds ∧
    (sys.UpdateConnectivityAndFindDetached).2.data.anchorCellIds
        = sys.data.anchorCellIds := by
  unfold FStructuralIntegritySystem.UpdateConnectivityAndFindDetached
  by_cases h0 : sys.cellNeighbors.length = 0
  · rw [if_pos h0]
    exact ⟨rfl, rfl⟩
  · rw [if_neg h0]
    simp only
    by_cases h1 : (((List.range sys.data.cellCount).filter
        fun c => decide (c ∉ sys.data.destroyedCellIds) &&
          decide (c ∉ sys.FindAllConnectedToAnchors_Internal)).length) = 0
    · rw [if_pos h1]
      exact ⟨rfl, rfl⟩
    · rw [if_neg h1]
      rw [BuildDetachedGroups_data]
      exact ⟨rfl, rfl⟩

/-! ## C7: destroying an already-destroyed cell is a no-op -/

/-- C7: a DestroyCells call whose ids are all already destroyed returns an
empty newly-destroyed list, performs no connectivity recomputation and
leaves the state untouched; and CalculateDestroyedCells never reports an
already-destroyed cell. -/
theorem destroyAlreadyDestroyed_noop (sys : FStructuralIntegritySystem)
    (cellIds : List ℕ) (hinit : sys.bInitialized = true)
    (hmem : ∀ c ∈ cellIds, c ∈ sys.data.destroyedCellIds) :
    sys.DestroyCells cellIds = (emptyIntegrityResult, sys) ∧
    (∀ (g : FGridCellCache) (shape : FQuantizedDestructionInput)
      (meshTransform : Vec3 → Vec3) (env : EngineEnv) (destroyed : Finset ℕ) (c : ℕ),
      c ∈ FCellDestructionSystem.CalculateDestroyedCells g shape meshTransform env
        destroyed → c ∉ destroyed) := by
  constructor
  · unfold FStructuralIntegritySystem.DestroyCells
    rw [if_neg (by simp [hinit])]
    simp only
    rw [destroyFold_already cellIds [] hmem]
    rfl
  · intro g shape meshTransform env destroyed c hc
    unfold FCellDestructionSystem.CalculateDestroyedCells at hc
    rw [List.mem_filter] at hc
    have := hc.2
    simp only [Bool.and_eq_true, decide_eq_true_eq] at this
    exact this.1.2

/-- Witness for C7: destroying the already-destroyed cell 1 of the concrete
two-cell system changes nothing. -/
theorem destroyAlreadyDestroyed_noop_witness :
    (exSys.bInitialized = true ∧ (1 : ℕ) ∈ exSys.data.destroyedCellIds) ∧
    exSys.DestroyCells [1] = (emptyIntegrityResult, exSys) := by
  have h := destroyAlreadyDestroyed_noop exSys [1] (by decide)
    (by intro c hc; simp only [List.mem_singleton] at hc; subst hc; decide)
  exact ⟨⟨by decide, by decide⟩, h.1⟩

/-! ## C6: the structure-collapsed flag -/

/-- C6: after a DestroyCells call that newly destroys at least one cell, the
collapsed flag is set exactly when the anchor set is non-empty and every
anchor is destroyed; a system with no anchors never reports collapse. -/
theorem structureCollapsed_iff_allAnchorsDestroyed (sys : FStructuralIntegritySystem)
    (cellIds : List ℕ) (hinit : sys.bInitialized = true) :
    ((sys.DestroyCells cellIds).1.newlyDestroyedCellIds ≠ [] →
      ((sys.DestroyCells cellIds).1.bStructureCollapsed = true ↔
        sys.data.anchorCellIds.Nonempty ∧
        ∀ a ∈ sys.data.anchorCellIds,
          a ∈ (sys.DestroyCells cellIds).2.data.destroyedCellIds)) ∧
    (sys.data.anchorCellIds = ∅ →
      (sys.DestroyCells cellIds).1.bStructureCollapsed = false) := by
  unfold FStructuralIntegritySystem.DestroyCells
  rw [if_neg (by simp [hinit])]
  simp only
  set p := cellIds.foldl
    (fun (acc : List ℕ × FStructuralIntegritySystem) c =>
      let r := acc.2.DestroyCellInternal c
      (if r.1 then acc.1 ++ [c] else acc.1, r.2))
    ([], sys) with hp
  by_cases hemp : p.1 = []
  · rw [if_pos hemp]
    constructor
    · intro hne
      exact absurd rfl hne
    · intro _
      rfl
  · rw [if_neg hemp]
    simp only
    have hanch : (p.2.UpdateConnectivityAndFindDetached).2.data.anchorCellIds
        = sys.data.anchorCellIds := by
      rw [(Update_destroyed_anchors p.2).2, hp, destroyFold_anchors]
    constructor
    · intro _
      rw [Bool.and_eq_true, decide_eq_true_eq, decide_eq_true_eq, hanch]
      rw [Finset.card_pos]
      constructor
      · rintro ⟨h1, h2⟩
        exact ⟨h2, h1⟩
      · rintro ⟨h1, h2⟩
        exact ⟨h2, h1⟩
    · intro hempty
      rw [hanch, hempty]
      simp

/-- Witness for C6: destroying anchor cell 0 of the two-cell system (cell 1
already destroyed) collapses the structure. -/
theorem structureCollapsed_iff_allAnchorsDestroyed_witness :
    (exSys.bInitialized = true ∧
      (exSys.DestroyCells [0]).1.newlyDestroyedCellIds ≠ []) ∧
    ((exSys.DestroyCells [0]).1.bStructureCollapsed = true ↔
      exSys.data.anchorCellIds.Nonempty ∧
      ∀ a ∈ exSys.data.anchorCellIds,
        a ∈ (exSys.DestroyCells [0]).2.data.destroyedCellIds) := by
  have h := structureCollapsed_iff_allAnchorsDestroyed exSys [0] (by decide)
  have hne : (exSys.DestroyCells [0]).1.newlyDestroyedCellIds ≠ [] := by decide
  exact ⟨⟨by decide, hne⟩, h.1 hne⟩

/-! ## C1: the two-phase destruction test -/

theorem vertexMajorityLoop_iff (env : EngineEnv) (shape : FQuantizedDestructionInput)
    (meshTransform : Vec3 → Vec3) (l : List Vec3) :
    ∀ count, count < 4 →
      (FCellDestructionSystem.vertexMajorityLoop env shape meshTransform l count = true ↔
        4 ≤ count + l.countP fun v => shape.ContainsPoint env (meshTransform v)) := by
  induction l with
  | nil =>
      intro count hc
      simp only [FCellDestructionSystem.vertexMajorityLoop, List.countP_nil]
      constructor
      · intro h
        exact absurd h (by simp)
      · intro h
        omega
  | cons v rest ih =>
      intro count hc
      unfold FCellDestructionSystem.vertexMajorityLoop
      by_cases hv : shape.ContainsPoint env (meshTransform v) = true
      · have hcount : (v :: rest).countP (fun w => shape.ContainsPoint env (meshTransform w))
            = rest.countP (fun w => shape.ContainsPoint env (meshTransform w)) + 1 := by
          rw [List.countP_cons]
          simp [hv]
        rw [if_pos hv, hcount]
        by_cases h4 : 4 ≤ count + 1
        · rw [if_pos h4]
          constructor
          · intro _
            omega
          · intro _
            rfl
        · rw [if_neg h4]
          rw [ih (count + 1) (by omega)]
          omega
      · have hcount : (v :: rest).countP (fun w => shape.ContainsPoint env (meshTransform w))
            = rest.countP (fun w => shape.ContainsPoint env (meshTransform w)) := by
          rw [List.countP_cons]
          simp [hv]
        rw [if_neg hv, hcount]
        exact ih count hc

/-- C1: CalculateDestroyedCells reports an existing, not-yet-destroyed cell
as destroyed exactly when the cell's world center lies inside the shape or
at least four of its eight world-space vertices do. -/
theorem calculateDestroyedCells_mem_iff (g : FGridCellCache)
    (shape : FQuantizedDestructionInput) (meshTransform : Vec3 → Vec3)
    (env : EngineEnv) (destroyedCells : Finset ℕ) (c : ℕ)
    (hvalid : ValidCache g) (hc : c < g.GetTotalCellCount)
    (hex : g.cellExists c = true) (hnd : c ∉ destroyedCells) :
    c ∈ FCellDestructionSystem.CalculateDestroyedCells g shape meshTransform env
        destroyedCells ↔
      (shape.ContainsPoint env (g.IdToWorldCenter meshTransform c) = true ∨
        4 ≤ (g.GetCellVertices c).countP
          fun v => shape.ContainsPoint env (meshTransform v)) := by
  unfold FCellDestructionSystem.CalculateDestroyedCells
  rw [List.mem_filter, List.mem_range]
  have hfilter : (g.cellExists c && decide (c ∉ destroyedCells) &&
      FCellDestructionSystem.IsCellDestroyed g c shape meshTransform env)
      = FCellDestructionSystem.IsCellDestroyed g c shape meshTransform env := by
    rw [hex, decide_eq_true hnd]
    simp
  rw [hfilter]
  simp only [hc, true_and]
  unfold FCellDestructionSystem.IsCellDestroyed
  by_cases hcenter : shape.ContainsPoint env (g.IdToWorldCenter meshTransform c) = true
  · rw [if_pos hcenter]
    simp [hcenter]
  · rw [if_neg hcenter]
    rw [vertexMajorityLoop_iff env shape meshTransform _ 0 (by omega)]
    simp only [Nat.zero_add]
    constructor
    · intro h
      exact Or.inr h
    · intro h
      rcases h with h | h
      · exact absurd h hcenter
      · exact h

/-- Witness for C1: on the anchored 3 by 3 grid, the quantized sphere of
radius 5 at the origin destroys cell 0, whose world center it contains. -/
theorem calculateDestroyedCells_mem_iff_witness :
    (exCache.GetTotalCellCount = 9 ∧ exCache.cellExists 0 = true ∧
      (0 : ℕ) ∉ (∅ : Finset ℕ)) ∧
    ((0 : ℕ) ∈ FCellDestructionSystem.CalculateDestroyedCells exCache exSphere
        idTransform idEnv ∅ ↔
      (exSphere.ContainsPoint idEnv (exCache.IdToWorldCenter idTransform 0) = true ∨
        4 ≤ (exCache.GetCellVertices 0).countP
          fun v => exSphere.ContainsPoint idEnv (idTransform v))) := by
  have hvalid : ValidCache exCache := ⟨by decide, by decide, by decide⟩
  have h := calculateDestroyedCells_mem_iff exCache exSphere idTransform idEnv ∅ 0
    hvalid (by decide) (by decide) (by decide)
  exact ⟨⟨rfl, rfl, by decide⟩, h⟩

/-! ## Worklist-loop lemmas -/

theorem scanNeighbors_nil (keep : ℕ → Bool) (visited : Finset ℕ) (queue : List ℕ) :
    scanNeighbors keep [] visited queue = (visited, queue) := rfl

theorem scanNeighbors_cons (keep : ℕ → Bool) (n : ℕ) (rest : List ℕ)
    (visited : Finset ℕ) (queue : List ℕ) :
    scanNeighbors keep (n :: rest) visited queue =
      if keep n = true ∧ n ∉ visited then
        scanNeighbors keep rest (insert n visited) (queue ++ [n])
      else
        scanNeighbors keep rest visited queue := rfl

/-- One neighbor scan appends a fresh block d to the queue and adds exactly
its members to the visited set. -/
theorem scanNeighbors_structure (keep : ℕ → Bool) :
    ∀ (ns : List ℕ) (visited : Finset ℕ) (queue : List ℕ),
      ∃ d : List ℕ,
        (scanNeighbors keep ns visited queue).2 = queue ++ d ∧
        (scanNeighbors keep ns visited queue).1 = visited ∪ d.toFinset ∧
        d.Nodup ∧
        ∀ x ∈ d, x ∉ visited ∧ x ∈ ns ∧ keep x = true := by
  intro ns
  induction ns with
  | nil =>
      intro visited queue
      exact ⟨[], by simp [scanNeighbors_nil], by simp [scanNeighbors_nil],
        List.nodup_nil, by simp⟩
  | cons n rest ih =>
      intro visited queue
      rw [scanNeighbors_cons]
      by_cases h : keep n = true ∧ n ∉ visited
      · rw [if_pos h]
        obtain ⟨d', hq, hv, hnd, hmem⟩ := ih (insert n visited) (queue ++ [n])
        refine ⟨n :: d', ?_, ?_, ?_, ?_⟩
        · rw [hq, List.append_assoc]
          rfl
        · rw [hv]
          ext x
          simp only [Finset.mem_union, Finset.mem_insert, List.toFinset_cons,
            List.mem_toFinset]
          tauto
        · refine List.Nodup.cons ?_ hnd
          intro hmem'
          exact (hmem n hmem').1 (Finset.mem_insert_self n visited)
        · intro x hx
          rcases List.mem_cons.mp hx with hx | hx
          · subst hx
            exact ⟨h.2, List.mem_cons_self _ _, h.1⟩
          · obtain ⟨h1, h2, h3⟩ := hmem x hx
            exact ⟨fun hv' => h1 (Finset.mem_insert_of_mem hv'),
              List.mem_cons_of_mem _ h2, h3⟩
      · rw [if_neg h]
        obtain ⟨d', hq, hv, hnd, hmem⟩ := ih visited queue
        refine ⟨d', hq, hv, hnd, ?_⟩
        intro x hx
        obtain ⟨h1, h2, h3⟩ := hmem x hx
        exact ⟨h1, List.mem_cons_of_mem _ h2, h3⟩

theorem scanNeighbors_subset (keep : ℕ → Bool) (ns : List ℕ) (visited : Finset ℕ)
    (queue : List ℕ) : visited ⊆ (scanNeighbors keep ns visited queue).1 := by
  obtain ⟨d, -, hv, -, -⟩ := scanNeighbors_structure keep ns visited queue
  rw [hv]
  exact Finset.subset_union_left

/-- After the scan, every kept neighbor of the list is visited. -/
theorem scanNeighbors_covers (keep : ℕ → Bool) :
    ∀ (ns : List ℕ) (visited : Finset ℕ) (queue : List ℕ) (n : ℕ),
      n ∈ ns → keep n = true → n ∈ (scanNeighbors keep ns visited queue).1 := by
  intro ns
  induction ns with
  | nil =>
      intro visited queue n hn
      exact absurd hn (List.not_mem_nil n)
  | cons m rest ih =>
      intro visited queue n hn hk
      rw [scanNeighbors_cons]
      by_cases h : keep m = true ∧ m ∉ visited
      · rw [if_pos h]
        rcases List.mem_cons.mp hn with hn | hn
        · subst hn
          exact scanNeighbors_subset keep rest _ _ (Finset.mem_insert_self n visited)
        · exact ih _ _ n hn hk
      · rw [if_neg h]
        rcases List.mem_cons.mp hn with hn | hn
        · subst hn
          have hmv : n ∈ visited := by
            by_contra hnv
            exact h ⟨hk, hnv⟩
          exact scanNeighbors_subset keep rest _ _ hmv
        · exact ih _ _ n hn hk

theorem bfsLoop_zero (nb : ℕ → List ℕ) (keep : ℕ → Bool) (queue : List ℕ)
    (visited : Finset ℕ) (order : List ℕ) :
    bfsLoop nb keep 0 queue visited order = (visited, order) := rfl

theorem bfsLoop_succ_nil (nb : ℕ → List ℕ) (keep : ℕ → Bool) (fuel : ℕ)
    (visited : Finset ℕ) (order : List ℕ) :
    bfsLoop nb keep (fuel + 1) [] visited order = (visited, order) := rfl

theorem bfsLoop_succ_cons (nb : ℕ → List ℕ) (keep : ℕ → Bool) (fuel : ℕ) (c : ℕ)
    (queue : List ℕ) (visited : Finset ℕ) (order : List ℕ) :
    bfsLoop nb keep (fuel + 1) (c :: queue) visited order =
      bfsLoop nb keep fuel (scanNeighbors keep (nb c) visited queue).2
        (scanNeighbors keep (nb c) visited queue).1 (order ++ [c]) := rfl

/-- The visited set only grows. -/
theorem bfsLoop_mono (nb : ℕ → List ℕ) (keep : ℕ → Bool) :
    ∀ (fuel : ℕ) (queue : List ℕ) (visited : Finset ℕ) (order : List ℕ),
      visited ⊆ (bfsLoop nb keep fuel queue visited order).1 := by
  intro fuel
  induction fuel with
  | zero =>
      intro queue visited order
      rw [bfsLoop_zero]
  | succ fuel ih =>
      intro queue visited order
      cases queue with
      | nil => rw [bfsLoop_succ_nil]
      | cons c qt =>
          rw [bfsLoop_succ_cons]
          exact (scanNeighbors_subset keep (nb c) visited qt).trans (ih _ _ _)

/-- Soundness: any predicate holding on the visited set and preserved along
kept neighbor steps holds on everything the loop visits. -/
theorem bfsLoop_sound (nb : ℕ → List ℕ) (keep : ℕ → Bool) (Q : ℕ → Prop)
    (hstep : ∀ a b, Q a → b ∈ nb a → keep b = true → Q b) :
    ∀ (fuel : ℕ) (queue : List ℕ) (visited : Finset ℕ) (order : List ℕ),
      (∀ x ∈ queue, x ∈ visited) → (∀ x ∈ visited, Q x) →
      ∀ x ∈ (bfsLoop nb keep fuel queue visited order).1, Q x := by
  intro fuel
  induction fuel with
  | zero =>
      intro queue visited order _ hv
      rw [bfsLoop_zero]
      exact hv
  | succ fuel ih =>
      intro queue visited order hqv hv
      cases queue with
      | nil =>
          rw [bfsLoop_succ_nil]
          exact hv
      | cons c qt =>
          rw [bfsLoop_succ_cons]
          obtain ⟨d, hq, hvis, hnd, hmem⟩ := scanNeighbors_structure keep (nb c) visited qt
          have hQc : Q c := hv c (hqv c (List.mem_cons_self c qt))
          have hv' : ∀ x ∈ (scanNeighbors keep (nb c) visited qt).1, Q x := by
            intro x hx
            rw [hvis] at hx
            rcases Finset.mem_union.mp hx with hx | hx
            · exact hv x hx
            · obtain ⟨-, h2, h3⟩ := hmem x (List.mem_toFinset.mp hx)
              exact hstep c x hQc h2 h3
          have hqv' : ∀ x ∈ (scanNeighbors keep (nb c) visited qt).2,
              x ∈ (scanNeighbors keep (nb c) visited qt).1 := by
            intro x hx
            rw [hq] at hx
            rcases List.mem_append.mp hx with hx | hx
            · exact scanNeighbors_subset keep (nb c) visited qt
                (hqv x (List.mem_cons_of_mem c hx))
            · rw [hvis]
              exact Finset.mem_union_right _ (List.mem_toFinset.mpr hx)
          exact ih _ _ _ hqv' hv'

/-- Completeness and drain of the worklist loop: with fuel at least the
measure (queue length plus unvisited candidates), the final visited set is
closed under kept neighbor steps, and the dequeue order lists without
repetition exactly the prior order, the queued cells and every newly
visited cell. -/
theorem bfsLoop_complete (nb : ℕ → List ℕ) (keep : ℕ → Bool) (B : Finset ℕ)
    (hB : ∀ c ∈ B, ∀ n ∈ nb c, keep n = true → n ∈ B) :
    ∀ (fuel : ℕ) (queue : List ℕ) (visited : Finset ℕ) (order : List ℕ),
      (∀ x ∈ queue, x ∈ B) →
      queue.length + (B \ visited).card ≤ fuel →
      (∀ x ∈ queue, x ∈ visited) →
      (∀ x ∈ visited, x ∈ queue ∨ ∀ n ∈ nb x, keep n = true → n ∈ visited) →
      (order ++ queue).Nodup →
      (∀ x ∈ order ++ queue, x ∈ visited) →
      (∀ x ∈ (bfsLoop nb keep fuel queue visited order).1, ∀ n ∈ nb x,
        keep n = true → n ∈ (bfsLoop nb keep fuel queue visited order).1) ∧
      (bfsLoop nb keep fuel queue visited order).2.toFinset
        = order.toFinset ∪ queue.toFinset
          ∪ ((bfsLoop nb keep fuel queue visited order).1 \ visited) ∧
      (bfsLoop nb keep fuel queue visited order).2.Nodup ∧
      (∀ x ∈ (bfsLoop nb keep fuel queue visited order).2,
        x ∈ (bfsLoop nb keep fuel queue visited order).1) := by
  intro fuel
  induction fuel with
  | zero =>
      intro queue visited order hqB hmu hqv hcl hnd hov
      have hq0 : queue = [] := List.length_eq_zero.mp (by omega)
      subst hq0
      rw [bfsLoop_zero]
      refine ⟨?_, ?_, ?_, ?_⟩
      · intro x hx n hn hk
        rcases hcl x hx with h | h
        · exact absurd h (List.not_mem_nil x)
        · exact h n hn hk
      · simp
      · simpa using hnd
      · intro x hx
        exact hov x (by simpa using hx)
  | succ fuel ih =>
      intro queue visited order hqB hmu hqv hcl hnd hov
      cases queue with
      | nil =>
          rw [bfsLoop_succ_nil]
          refine ⟨?_, ?_, ?_, ?_⟩
          · intro x hx n hn hk
            rcases hcl x hx with h | h
            · exact absurd h (List.not_mem_nil x)
            · exact h n hn hk
          · simp
          · simpa using hnd
          · intro x hx
            exact hov x (by simpa using hx)
      | cons c qt =>
          rw [bfsLoop_succ_cons]
          obtain ⟨d, hq, hvis, hdnd, hdmem⟩ :=
            scanNeighbors_structure keep (nb c) visited qt
          have hcB : c ∈ B := hqB c (List.mem_cons_self c qt)
          have hdB : ∀ x ∈ d, x ∈ B := fun x hx =>
            hB c hcB x (hdmem x hx).2.1 (hdmem x hx).2.2
          have hdfresh : ∀ x ∈ d, x ∉ visited := fun x hx => (hdmem x hx).1
          have hdsub : d.toFinset ⊆ B \ visited := by
            intro x hx
            rw [List.mem_toFinset] at hx
            exact Finset.mem_sdiff.mpr ⟨hdB x hx, hdfresh x hx⟩
          have hvsubV : visited ⊆ (scanNeighbors keep (nb c) visited qt).1 :=
            scanNeighbors_subset keep (nb c) visited qt
          have hdsubV : ∀ x ∈ d, x ∈ (scanNeighbors keep (nb c) visited qt).1 := by
            intro x hx
            rw [hvis]
            exact Finset.mem_union_right _ (List.mem_toFinset.mpr hx)
          have hcard : (B \ visited).card
              = (B \ (scanNeighbors keep (nb c) visited qt).1).card + d.length := by
            have h1 : B \ (scanNeighbors keep (nb c) visited qt).1
                = (B \ visited) \ d.toFinset := by
              rw [hvis]
              ext x
              simp only [Finset.mem_sdiff, Finset.mem_union, List.mem_toFinset]
              tauto
            have h2 : d.toFinset.card = d.length := List.toFinset_card_of_nodup hdnd
            have h3 : d.toFinset.card ≤ (B \ visited).card := Finset.card_le_card hdsub
            rw [h1, Finset.card_sdiff hdsub]
            omega
          have hqB' : ∀ x ∈ (scanNeighbors keep (nb c) visited qt).2, x ∈ B := by
            intro x hx
            rw [hq] at hx
            rcases List.mem_append.mp hx with hx | hx
            · exact hqB x (List.mem_cons_of_mem c hx)
            · exact hdB x hx
          have hmu' : (scanNeighbors keep (nb c) visited qt).2.length
              + (B \ (scanNeighbors keep (nb c) visited qt).1).card ≤ fuel := by
            have hlen : (scanNeighbors keep (nb c) visited qt).2.length
                = qt.length + d.length := by
              rw [hq, List.length_append]
            simp only [List.length_cons] at hmu
            omega
          have hqv' : ∀ x ∈ (scanNeighbors keep (nb c) visited qt).2,
              x ∈ (scanNeighbors keep (nb c) visited qt).1 := by
            intro x hx
            rw [hq] at hx
            rcases List.mem_append.mp hx with hx | hx
            · exact hvsubV (hqv x (List.mem_cons_of_mem c hx))
            · exact hdsubV x hx
          have hcl' : ∀ x ∈ (scanNeighbors keep (nb c) visited qt).1,
              x ∈ (scanNeighbors keep (nb c) visited qt).2 ∨
              ∀ n ∈ nb x, keep n = true →
                n ∈ (scanNeighbors keep (nb c) visited qt).1 := by
            intro x hx
            rw [hvis] at hx
            rcases Finset.mem_union.mp hx with hx | hx
            · rcases hcl x hx with h | h
              · rcases List.mem_cons.mp h with h | h
                · subst h
                  exact Or.inr fun n hn hk => scanNeighbors_covers keep (nb x) visited qt n hn hk
                · refine Or.inl ?_
                  rw [hq]
                  exact List.mem_append.mpr (Or.inl h)
              · exact Or.inr fun n hn hk => hvsubV (h n hn hk)
            · refine Or.inl ?_
              rw [hq]
              exact List.mem_append.mpr (Or.inr (List.mem_toFinset.mp hx))
          have hbase : ((order ++ [c]) ++ qt).Nodup := by
            have heq : (order ++ [c]) ++ qt = order ++ c :: qt := by
              rw [List.append_assoc]
              rfl
            rw [heq]
            exact hnd
          have hbasemem : ∀ x ∈ (order ++ [c]) ++ qt, x ∈ visited := by
            intro x hx
            apply hov
            have heq : (order ++ [c]) ++ qt = order ++ c :: qt := by
              rw [List.append_assoc]
              rfl
            rw [heq] at hx
            exact hx
          have hnd' : ((order ++ [c]) ++ (scanNeighbors keep (nb c) visited qt).2).Nodup := by
            rw [hq, ← List.append_assoc]
            refine List.Nodup.append hbase hdnd ?_
            intro a ha had
            exact hdfresh a had (hbasemem a ha)
          have hov' : ∀ x ∈ (order ++ [c]) ++ (scanNeighbors keep (nb c) visited qt).2,
              x ∈ (scanNeighbors keep (nb c) visited qt).1 := by
            intro x hx
            rw [hq, ← List.append_assoc] at hx
            rcases List.mem_append.mp hx with hx | hx
            · exact hvsubV (hbasemem x hx)
            · exact hdsubV x hx
          obtain ⟨ihc, ihord, ihnd2, ihmem⟩ :=
            ih (scanNeighbors keep (nb c) visited qt).2
              (scanNeighbors keep (nb c) visited qt).1 (order ++ [c])
              hqB' hmu' hqv' hcl' hnd' hov'
          refine ⟨ihc, ?_, ihnd2, ihmem⟩
          rw [ihord]
          have hmono := bfsLoop_mono nb keep fuel
            (scanNeighbors keep (nb c) visited qt).2
            (scanNeighbors keep (nb c) visited qt).1 (order ++ [c])
          set r := bfsLoop nb keep fuel (scanNeighbors keep (nb c) visited qt).2
            (scanNeighbors keep (nb c) visited qt).1 (order ++ [c]) with hr
          set sv := (scanNeighbors keep (nb c) visited qt).1 with hsv
          ext x
          have hI1 : x ∈ d → x ∈ r.1 := fun hx => hmono (hdsubV x hx)
          have hI2 : x ∈ d → x ∉ visited := hdfresh x
          have hI3 : x ∈ visited → x ∈ sv := fun hx => hvsubV hx
          have hI4 : x ∈ sv → x ∈ visited ∨ x ∈ d := by
            intro hx
            rw [hvis] at hx
            rcases Finset.mem_union.mp hx with h | h
            · exact Or.inl h
            · exact Or.inr (List.mem_toFinset.mp h)
          rw [hq]
          simp only [Finset.mem_union, Finset.mem_sdiff, List.toFinset_append,
            List.toFinset_cons, List.mem_toFinset, Finset.mem_insert,
            List.toFinset_nil, Finset.not_mem_empty, or_false, List.mem_append]
          constructor
          · rintro (((hx | hx) | (hx | hx)) | ⟨hx1, hx2⟩)
            · exact Or.inl (Or.inl hx)
            · exact Or.inl (Or.inr (Or.inl hx))
            · exact Or.inl (Or.inr (Or.inr hx))
            · exact Or.inr ⟨hI1 hx, hI2 hx⟩
            · exact Or.inr ⟨hx1, fun hv => hx2 (hI3 hv)⟩
          · rintro ((hx | (hx | hx)) | ⟨hx1, hx2⟩)
            · exact Or.inl (Or.inl (Or.inl hx))
            · exact Or.inl (Or.inl (Or.inr hx))
            · exact Or.inl (Or.inr (Or.inl hx))
            · by_cases hd : x ∈ d
              · exact Or.inl (Or.inr (Or.inr hd))
              · exact Or.inr ⟨hx1, fun hv => (hI4 hv).elim hx2 hd⟩

/-! ## Characterizing FindDisconnectedCells -/

theorem anchorSeeds_mem (g : FGridCellCache) (destroyed : Finset ℕ) (x : ℕ) :
    x ∈ FCellDestructionSystem.anchorSeeds g destroyed ↔ LiveAnchor g destroyed x := by
  unfold FCellDestructionSystem.anchorSeeds LiveAnchor
  rw [List.mem_filter, List.mem_range]
  simp only [Bool.and_eq_true, decide_eq_true_eq, and_assoc]

theorem anchorSeeds_nodup (g : FGridCellCache) (destroyed : Finset ℕ) :
    (FCellDestructionSystem.anchorSeeds g destroyed).Nodup :=
  (List.nodup_range _).filter _

/-- The BFS of FindDisconnectedCells visits exactly the anchor-connected
cells, on a valid cache. -/
theorem findDisconnected_connected_iff (g : FGridCellCache) (destroyed : Finset ℕ)
    (hvalid : ValidCache g) (x : ℕ) :
    x ∈ (bfsLoop g.cellNeighbors (fun n => decide (n ∉ destroyed))
        g.GetTotalCellCount (FCellDestructionSystem.anchorSeeds g destroyed)
        (FCellDestructionSystem.anchorSeeds g destroyed).toFinset []).1 ↔
      AnchorConnected g destroyed x := by
  have hseed_mem : ∀ y ∈ FCellDestructionSystem.anchorSeeds g destroyed,
      LiveAnchor g destroyed y := fun y hy => (anchorSeeds_mem g destroyed y).mp hy
  constructor
  · intro hx
    refine bfsLoop_sound g.cellNeighbors (fun n => decide (n ∉ destroyed))
      (AnchorConnected g destroyed) ?_ g.GetTotalCellCount _ _ []
      (fun y hy => List.mem_toFinset.mpr hy) ?_ x hx
    · rintro a b ⟨anc, hanc, hpath⟩ hb hk
      exact ⟨anc, hanc, hpath.tail ⟨hb, of_decide_eq_true hk⟩⟩
    · intro y hy
      exact ⟨y, hseed_mem y (List.mem_toFinset.mp hy), Relation.ReflTransGen.refl⟩
  · rintro ⟨a, ha, hpath⟩
    have hseedsub : ∀ y ∈ FCellDestructionSystem.anchorSeeds g destroyed,
        y ∈ Finset.range g.GetTotalCellCount := fun y hy =>
      Finset.mem_range.mpr (hseed_mem y hy).1
    have hcomplete := bfsLoop_complete g.cellNeighbors (fun n => decide (n ∉ destroyed))
      (Finset.range g.GetTotalCellCount)
      (by
        intro c hc n hn _
        exact Finset.mem_range.mpr
          (hvalid.neighbors_lt c (Finset.mem_range.mp hc) n hn))
      g.GetTotalCellCount (FCellDestructionSystem.anchorSeeds g destroyed)
      (FCellDestructionSystem.anchorSeeds g destroyed).toFinset []
      hseedsub
      (by
        have h1 : (FCellDestructionSystem.anchorSeeds g destroyed).toFinset.card
            = (FCellDestructionSystem.anchorSeeds g destroyed).length :=
          List.toFinset_card_of_nodup (anchorSeeds_nodup g destroyed)
        have h2 : (FCellDestructionSystem.anchorSeeds g destroyed).toFinset
            ⊆ Finset.range g.GetTotalCellCount := by
          intro y hy
          exact hseedsub y (List.mem_toFinset.mp hy)
        have h3 := Finset.card_sdiff h2
        have h4 := Finset.card_le_card h2
        rw [Finset.card_range] at h3 h4
        omega)
      (fun y hy => List.mem_toFinset.mpr hy)
      (fun y hy => Or.inl (List.mem_toFinset.mp hy))
      (by simpa using anchorSeeds_nodup g destroyed)
      (by
        intro y hy
        simp only [List.nil_append] at hy
        exact List.mem_toFinset.mpr hy)
    have hclosed := hcomplete.1
    have hmono := bfsLoop_mono g.cellNeighbors (fun n => decide (n ∉ destroyed))
      g.GetTotalCellCount (FCellDestructionSystem.anchorSeeds g destroyed)
      (FCellDestructionSystem.anchorSeeds g destroyed).toFinset []
    have hstart : a ∈ (bfsLoop g.cellNeighbors (fun n => decide (n ∉ destroyed))
        g.GetTotalCellCount (FCellDestructionSystem.anchorSeeds g destroyed)
        (FCellDestructionSystem.anchorSeeds g destroyed).toFinset []).1 :=
      hmono (List.mem_toFinset.mpr ((anchorSeeds_mem g destroyed a).mpr ha))
    clear hcomplete
    induction hpath with
    | refl => exact hstart
    | tail hab hbc ihb =>
        rename_i b c
        exact hclosed b ihb c hbc.1 (decide_eq_true hbc.2)

/-- Membership in the FindDisconnectedCells output, on a valid cache. -/
theorem findDisconnectedCells_mem (g : FGridCellCache) (destroyed : Finset ℕ)
    (hvalid : ValidCache g) (x : ℕ) :
    x ∈ FCellDestructionSystem.FindDisconnectedCells g destroyed ↔
      x < g.GetTotalCellCount ∧ g.cellExists x = true ∧ x ∉ destroyed ∧
        ¬AnchorConnected g destroyed x := by
  unfold FCellDestructionSystem.FindDisconnectedCells
  rw [List.mem_filter, List.mem_range]
  simp only [Bool.and_eq_true, decide_eq_true_eq, and_assoc]
  rw [findDisconnected_connected_iff g destroyed hvalid x]

theorem findDisconnectedCells_sorted (g : FGridCellCache) (destroyed : Finset ℕ) :
    List.Sorted (· < ·) (FCellDestructionSystem.FindDisconnectedCells g destroyed) := by
  unfold FCellDestructionSystem.FindDisconnectedCells
  exact (List.pairwise_lt_range _).filter _

theorem findDisconnectedCells_lt (g : FGridCellCache) (destroyed : Finset ℕ) :
    ∀ x ∈ FCellDestructionSystem.FindDisconnectedCells g destroyed,
      x < g.GetTotalCellCount := by
  intro x hx
  unfold FCellDestructionSystem.FindDisconnectedCells at hx
  rw [List.mem_filter, List.mem_range] at hx
  exact hx.1

/-! ## Path reversal on a valid cache -/

theorem neighborPath_lt (g : FGridCellCache) (destroyed : Finset ℕ)
    (hvalid : ValidCache g) {a b : ℕ} (ha : a < g.GetTotalCellCount)
    (h : Relation.ReflTransGen (NeighborStep g destroyed) a b) :
    b < g.GetTotalCellCount := by
  induction h with
  | refl => exact ha
  | tail hab hbc ih => exact hvalid.neighbors_lt _ ih _ hbc.1

theorem neighborPath_notDestroyed (g : FGridCellCache) (destroyed : Finset ℕ)
    {a b : ℕ} (ha : a ∉ destroyed)
    (h : Relation.ReflTransGen (NeighborStep g destroyed) a b) : b ∉ destroyed := by
  induction h with
  | refl => exact ha
  | tail _ hbc _ => exact hbc.2

theorem neighborPath_reverse (g : FGridCellCache) (destroyed : Finset ℕ)
    (hvalid : ValidCache g) {a x : ℕ} (ha : a < g.GetTotalCellCount)
    (hnd : a ∉ destroyed)
    (h : Relation.ReflTransGen (NeighborStep g destroyed) a x) :
    Relation.ReflTransGen (NeighborStep g destroyed) x a := by
  induction h with
  | refl => exact Relation.ReflTransGen.refl
  | tail hab hbc ih =>
      rename_i b c
      have hblt : b < g.GetTotalCellCount := neighborPath_lt g destroyed hvalid ha hab
      have hbnd : b ∉ destroyed := neighborPath_notDestroyed g destroyed hnd hab
      exact Relation.ReflTransGen.head ⟨hvalid.neighbors_symm b hblt c hbc.1, hbnd⟩ ih

/-- C3: FindDisconnectedCells returns exactly the existing, non-destroyed
cells with no path to any live anchor through the neighbor graph restricted
to non-destroyed cells. -/
theorem findDisconnectedCells_iff_noAnchorPath (g : FGridCellCache)
    (destroyed : Finset ℕ) (hvalid : ValidCache g) (x : ℕ) :
    x ∈ FCellDestructionSystem.FindDisconnectedCells g destroyed ↔
      x < g.GetTotalCellCount ∧ g.cellExists x = true ∧ x ∉ destroyed ∧
        ¬∃ a, LiveAnchor g destroyed a ∧
          Relation.ReflTransGen (NeighborStep g destroyed) x a := by
  rw [findDisconnectedCells_mem g destroyed hvalid x]
  refine and_congr_right fun hx => and_congr_right fun _ => and_congr_right fun hnd =>
    not_congr ?_
  constructor
  · rintro ⟨a, ha, p⟩
    exact ⟨a, ha, neighborPath_reverse g destroyed hvalid ha.1 ha.2.2.2 p⟩
  · rintro ⟨a, ha, p⟩
    exact ⟨a, ha, neighborPath_reverse g destroyed hvalid hx hnd p⟩

/-- Witness for C3: on the anchored 3 by 3 grid with cells 1 and 3
destroyed, cell 2 is reported disconnected. -/
theorem findDisconnectedCells_iff_noAnchorPath_witness :
    ((2 : ℕ) ∈ FCellDestructionSystem.FindDisconnectedCells anCache {1, 3} ↔
      2 < anCache.GetTotalCellCount ∧ anCache.cellExists 2 = true ∧
        (2 : ℕ) ∉ ({1, 3} : Finset ℕ) ∧
        ¬∃ a, LiveAnchor anCache {1, 3} a ∧
          Relation.ReflTransGen (NeighborStep anCache {1, 3}) 2 a) ∧
    (2 : ℕ) ∈ FCellDestructionSystem.FindDisconnectedCells anCache {1, 3} := by
  have hvalid : ValidCache anCache := ⟨by decide, by decide, by decide⟩
  exact ⟨findDisconnectedCells_iff_noAnchorPath anCache {1, 3} hvalid 2, by decide⟩

/-! ## Grouping: paths inside the disconnected set -/

theorem discPath_mem (g : FGridCellCache) (dl : List ℕ) {a b : ℕ} (ha : a ∈ dl)
    (h : Relation.ReflTransGen (DiscStep g dl) a b) : b ∈ dl := by
  induction h with
  | refl => exact ha
  | tail _ hbc _ => exact hbc.2

theorem discPath_reverse (g : FGridCellCache) (dl : List ℕ) (hvalid : ValidCache g)
    (hlt : ∀ x ∈ dl, x < g.GetTotalCellCount) {a x : ℕ} (ha : a ∈ dl)
    (h : Relation.ReflTransGen (DiscStep g dl) a x) :
    Relation.ReflTransGen (DiscStep g dl) x a := by
  induction h with
  | refl => exact Relation.ReflTransGen.refl
  | tail hab hbc ih =>
      rename_i b c
      have hbdl : b ∈ dl := discPath_mem g dl ha hab
      exact Relation.ReflTransGen.head
        ⟨hvalid.neighbors_symm b (hlt b hbdl) c hbc.1, hbdl⟩ ih

/-- A visited set closed under disconnected-set neighbor steps swallows every
path out of it. -/
theorem visitedClosedPath (g : FGridCellCache) (dl : List ℕ) (visited : Finset ℕ)
    (hcl : ∀ x ∈ visited, ∀ n ∈ g.cellNeighbors x, n ∈ dl → n ∈ visited)
    {x z : ℕ} (hx : x ∈ visited)
    (h : Relation.ReflTransGen (DiscStep g dl) x z) : z ∈ visited := by
  induction h with
  | refl => exact hx
  | tail _ hbc ih => exact hcl _ ih _ hbc.1 hbc.2

/-- The dequeue order only ever grows on the right. -/
theorem bfsLoop_order_extends (nb : ℕ → List ℕ) (keep : ℕ → Bool) :
    ∀ (fuel : ℕ) (queue : List ℕ) (visited : Finset ℕ) (order : List ℕ),
      ∃ t, (bfsLoop nb keep fuel queue visited order).2 = order ++ t := by
  intro fuel
  induction fuel with
  | zero =>
      intro queue visited order
      exact ⟨[], by rw [bfsLoop_zero, List.append_nil]⟩
  | succ fuel ih =>
      intro queue visited order
      cases queue with
      | nil => exact ⟨[], by rw [bfsLoop_succ_nil, List.append_nil]⟩
      | cons c qt =>
          rw [bfsLoop_succ_cons]
          obtain ⟨t, ht⟩ := ih (scanNeighbors keep (nb c) visited qt).2
            (scanNeighbors keep (nb c) visited qt).1 (order ++ [c])
          exact ⟨c :: t, by rw [ht, List.append_assoc]; rfl⟩

theorem groupLoop_nil (g : FGridCellCache) (dl : List ℕ) (visited : Finset ℕ)
    (groups : List (List ℕ)) :
    FCellDestructionSystem.groupLoop g dl [] visited groups = groups := rfl

theorem groupLoop_cons (g : FGridCellCache) (dl : List ℕ) (s : ℕ) (rest : List ℕ)
    (visited : Finset ℕ) (groups : List (List ℕ)) :
    FCellDestructionSystem.groupLoop g dl (s :: rest) visited groups =
      if s ∈ visited then
        FCellDestructionSystem.groupLoop g dl rest visited groups
      else
        FCellDestructionSystem.groupLoop g dl rest
          (bfsLoop g.cellNeighbors (fun n => decide (n ∈ dl)) (dl.length + 1)
            [s] (insert s visited) []).1
          (groups ++ [(bfsLoop g.cellNeighbors (fun n => decide (n ∈ dl))
            (dl.length + 1) [s] (insert s visited) []).2]) := rfl

theorem groupLoop_extends (g : FGridCellCache) (dl : List ℕ) :
    ∀ (todo : List ℕ) (visited : Finset ℕ) (groups : List (List ℕ)),
      ∃ t, FCellDestructionSystem.groupLoop g dl todo visited groups = groups ++ t := by
  intro todo
  induction todo with
  | nil =>
      intro visited groups
      exact ⟨[], by rw [groupLoop_nil, List.append_nil]⟩
  | cons s rest ih =>
      intro visited groups
      rw [groupLoop_cons]
      by_cases h : s ∈ visited
      · rw [if_pos h]
        exact ih visited groups
      · rw [if_neg h]
        obtain ⟨t, ht⟩ := ih
          (bfsLoop g.cellNeighbors (fun n => decide (n ∈ dl)) (dl.length + 1)
            [s] (insert s visited) []).1
          (groups ++ [(bfsLoop g.cellNeighbors (fun n => decide (n ∈ dl))
            (dl.length + 1) [s] (insert s visited) []).2])
        exact ⟨_ :: t, by rw [ht, List.append_assoc]; rfl⟩

/-- The grouping loop invariant: iterating a sorted enumeration of the
disconnected set, every produced group is a connected component led by its
smallest member, groups are disjoint, cover the set, and their heads come
out in ascending order. -/
theorem groupLoop_master (g : FGridCellCache) (dl : List ℕ) (hvalid : ValidCache g)
    (hlt : ∀ x ∈ dl, x < g.GetTotalCellCount) (hsorted : List.Sorted (· < ·) dl) :
    ∀ (todo done : List ℕ) (visited : Finset ℕ) (groups : List (List ℕ)),
      done ++ todo = dl →
      (∀ x ∈ done, x ∈ visited) →
      (∀ x ∈ visited, x ∈ dl) →
      (∀ x ∈ visited, ∀ n ∈ g.cellNeighbors x, n ∈ dl → n ∈ visited) →
      (∀ x ∈ visited, ∃ grp ∈ groups, x ∈ grp) →
      (∀ grp ∈ groups, ∀ x ∈ grp, x ∈ visited) →
      (∀ grp ∈ groups, GroupOk g dl grp) →
      List.Sorted (· < ·) (headsOf groups) →
      (∀ s ∈ headsOf groups, ∀ t ∈ todo, s < t) →
      List.Pairwise (fun g1 g2 => ∀ x ∈ g1, x ∉ g2) groups →
      (∀ x ∈ dl, ∃ grp ∈ FCellDestructionSystem.groupLoop g dl todo visited groups,
        x ∈ grp) ∧
      (∀ grp ∈ FCellDestructionSystem.groupLoop g dl todo visited groups,
        ∀ x ∈ grp, x ∈ dl) ∧
      (∀ grp ∈ FCellDestructionSystem.groupLoop g dl todo visited groups,
        GroupOk g dl grp) ∧
      List.Sorted (· < ·)
        (headsOf (FCellDestructionSystem.groupLoop g dl todo visited groups)) ∧
      List.Pairwise (fun g1 g2 => ∀ x ∈ g1, x ∉ g2)
        (FCellDestructionSystem.groupLoop g dl todo visited groups) := by
  intro todo
  induction todo with
  | nil =>
      intro done visited groups hsplit hdonevis hvisdl hclinv hcov hmemvis hok
        hheadsorted hheadlt hdisj
      rw [groupLoop_nil]
      refine ⟨?_, ?_, hok, hheadsorted, hdisj⟩
      · intro x hx
        have hxdone : x ∈ done := by
          rw [List.append_nil] at hsplit
          rw [hsplit]
          exact hx
        exact hcov x (hdonevis x hxdone)
      · intro grp hgrp x hx
        exact hvisdl x (hmemvis grp hgrp x hx)
  | cons s rest ih =>
      intro done visited groups hsplit hdonevis hvisdl hclinv hcov hmemvis hok
        hheadsorted hheadlt hdisj
      have hsdl : s ∈ dl := by
        rw [← hsplit]
        exact List.mem_append.mpr (Or.inr (List.mem_cons_self s rest))
      have hpw : (done ++ s :: rest).Pairwise (· < ·) := by
        rw [hsplit]
        exact hsorted
      obtain ⟨hpw_done, hpw_sr, hcross⟩ := List.pairwise_append.mp hpw
      have hs_lt_rest : ∀ y ∈ rest, s < y := (List.pairwise_cons.mp hpw_sr).1
      rw [groupLoop_cons]
      by_cases hsv : s ∈ visited
      · rw [if_pos hsv]
        refine ih (done ++ [s]) visited groups ?_ ?_ hvisdl hclinv hcov hmemvis hok
          hheadsorted ?_ hdisj
        · rw [List.append_assoc]
          exact hsplit
        · intro x hx
          rcases List.mem_append.mp hx with hx | hx
          · exact hdonevis x hx
          · rw [List.mem_singleton] at hx
            subst hx
            exact hsv
        · intro h hh t ht
          exact hheadlt h hh t (List.mem_cons_of_mem s ht)
      · rw [if_neg hsv]
        set r := bfsLoop g.cellNeighbors (fun n => decide (n ∈ dl)) (dl.length + 1)
          [s] (insert s visited) [] with hr
        -- structural facts about the flood fill r
        have hcomplete := bfsLoop_complete g.cellNeighbors (fun n => decide (n ∈ dl))
          dl.toFinset
          (fun c _ n _ hk => List.mem_toFinset.mpr (of_decide_eq_true hk))
          (dl.length + 1) [s] (insert s visited) []
          (by
            intro x hx
            rw [List.mem_singleton] at hx
            subst hx
            exact List.mem_toFinset.mpr hsdl)
          (by
            have h1 : (dl.toFinset \ insert s visited).card ≤ dl.toFinset.card :=
              Finset.card_le_card (Finset.sdiff_subset)
            have h2 : dl.toFinset.card ≤ dl.length := dl.toFinset_card_le
            simp only [List.length_singleton]
            omega)
          (by
            intro x hx
            rw [List.mem_singleton] at hx
            subst hx
            exact Finset.mem_insert_self x visited)
          (by
            intro x hx
            rcases Finset.mem_insert.mp hx with hx | hx
            · subst hx
              exact Or.inl (List.mem_singleton.mpr rfl)
            · exact Or.inr fun n hn hk =>
                Finset.mem_insert_of_mem (hclinv x hx n hn (of_decide_eq_true hk)))
          (by simp)
          (by
            intro x hx
            simp only [List.nil_append, List.mem_singleton] at hx
            subst hx
            exact Finset.mem_insert_self x visited)
        obtain ⟨hrclosed, hrordset, hrnodup, hrordmem⟩ := hcomplete
        have hrmono : insert s visited ⊆ r.1 :=
          bfsLoop_mono g.cellNeighbors (fun n => decide (n ∈ dl)) (dl.length + 1)
            [s] (insert s visited) []
        have hrsound : ∀ x ∈ r.1, x ∈ visited ∨
            Relation.ReflTransGen (DiscStep g dl) s x := by
          refine bfsLoop_sound g.cellNeighbors (fun n => decide (n ∈ dl))
            (fun x => x ∈ visited ∨ Relation.ReflTransGen (DiscStep g dl) s x)
            ?_ (dl.length + 1) [s] (insert s visited) [] ?_ ?_
          · intro a b hQ hb hk
            rcases hQ with hQ | hQ
            · exact Or.inl (hclinv a hQ b hb (of_decide_eq_true hk))
            · exact Or.inr (hQ.tail ⟨hb, of_decide_eq_true hk⟩)
          · intro x hx
            rw [List.mem_singleton] at hx
            subst hx
            exact Finset.mem_insert_self x visited
          · intro x hx
            rcases Finset.mem_insert.mp hx with hx | hx
            · subst hx
              exact Or.inr Relation.ReflTransGen.refl
            · exact Or.inl hx
        -- the head of the new group is the start cell
        have hhead : r.2.head? = some s := by
          rw [hr, bfsLoop_succ_cons]
          obtain ⟨t, ht⟩ := bfsLoop_order_extends g.cellNeighbors
            (fun n => decide (n ∈ dl)) dl.length
            (scanNeighbors (fun n => decide (n ∈ dl)) (g.cellNeighbors s)
              (insert s visited) []).2
            (scanNeighbors (fun n => decide (n ∈ dl)) (g.cellNeighbors s)
              (insert s visited) []).1 ([] ++ [s])
          rw [ht]
          rfl
        -- membership in the new group is connectivity to the start cell
        have hsinr1 : s ∈ r.1 := hrmono (Finset.mem_insert_self s visited)
        have hreach_r1 : ∀ y, Relation.ReflTransGen (DiscStep g dl) s y → y ∈ r.1 := by
          intro y hp
          induction hp with
          | refl => exact hsinr1
          | tail _ hbc ihy =>
              exact hrclosed _ ihy _ hbc.1 (decide_eq_true hbc.2)
        have hnotvis_of_reach : ∀ y, Relation.ReflTransGen (DiscStep g dl) s y →
            y ∉ visited := by
          intro y hp hyv
          exact hsv (visitedClosedPath g dl visited hclinv hyv
            (discPath_reverse g dl hvalid hlt hsdl hp))
        have hchar : ∀ y, y ∈ r.2 ↔ Relation.ReflTransGen (DiscStep g dl) s y := by
          intro y
          constructor
          · intro hy
            have hy' : y ∈ r.2.toFinset := List.mem_toFinset.mpr hy
            rw [hrordset] at hy'
            simp only [List.toFinset_nil, Finset.empty_union, List.toFinset_cons,
              List.toFinset_nil, Finset.mem_union, Finset.mem_insert,
              Finset.not_mem_empty, or_false, Finset.mem_sdiff] at hy'
            rcases hy' with hy' | ⟨hy1, hy2⟩
            · subst hy'
              exact Relation.ReflTransGen.refl
            · rcases hrsound y hy1 with hy3 | hy3
              · exact absurd (Or.inr hy3) hy2
              · exact hy3
          · intro hp
            have hy1 : y ∈ r.1 := hreach_r1 y hp
            have hy2 : y ∈ r.2.toFinset := by
              rw [hrordset]
              by_cases hys : y = s
              · subst hys
                simp
              · have hyv : y ∉ visited := hnotvis_of_reach y hp
                simp only [List.toFinset_nil, Finset.empty_union, List.toFinset_cons,
                  Finset.mem_union, Finset.mem_insert, Finset.not_mem_empty, or_false,
                  Finset.mem_sdiff]
                exact Or.inr ⟨hy1, fun h => h.elim hys hyv⟩
            exact List.mem_toFinset.mp hy2
        have hgrp_dl : ∀ y ∈ r.2, y ∈ dl := fun y hy =>
          discPath_mem g dl hsdl ((hchar y).mp hy)
        have hgrp_min : ∀ y ∈ r.2, s ≤ y := by
          intro y hy
          by_contra hlt'
          push_neg at hlt'
          have hydl : y ∈ dl := hgrp_dl y hy
          have hyd : y ∈ done ∨ y ∈ s :: rest := by
            rw [← hsplit] at hydl
            exact List.mem_append.mp hydl
          rcases hyd with hyd | hyd
          · exact hnotvis_of_reach y ((hchar y).mp hy) (hdonevis y hyd)
          · rcases List.mem_cons.mp hyd with hyd | hyd
            · subst hyd
              exact lt_irrefl y hlt'
            · exact absurd (hs_lt_rest y hyd) (by omega)
        have hgrpok : GroupOk g dl r.2 :=
          ⟨s, hhead, hrnodup, hchar, hgrp_min⟩
        -- the new group is disjoint from everything already visited
        have hgrp_fresh : ∀ y ∈ r.2, y ∉ visited := fun y hy =>
          hnotvis_of_reach y ((hchar y).mp hy)
        -- heads bookkeeping
        have hheads_eq : headsOf (groups ++ [r.2]) = headsOf groups ++ [s] := by
          unfold headsOf
          rw [List.filterMap_append]
          congr 1
          simp [hhead]
        -- invariants for the recursive call
        refine ih (done ++ [s]) r.1 (groups ++ [r.2]) ?_ ?_ ?_ ?_ ?_ ?_ ?_ ?_ ?_ ?_
        · rw [List.append_assoc]
          exact hsplit
        · intro x hx
          rcases List.mem_append.mp hx with hx | hx
          · exact hrmono (Finset.mem_insert_of_mem (hdonevis x hx))
          · rw [List.mem_singleton] at hx
            subst hx
            exact hsinr1
        · intro x hx
          rcases hrsound x hx with h | h
          · exact hvisdl x h
          · exact discPath_mem g dl hsdl h
        · intro x hx n hn hndl
          exact hrclosed x hx n hn (decide_eq_true hndl)
        · intro x hx
          rcases hrsound x hx with h | h
          · obtain ⟨grp, hg1, hg2⟩ := hcov x h
            exact ⟨grp, List.mem_append.mpr (Or.inl hg1), hg2⟩
          · exact ⟨r.2, List.mem_append.mpr (Or.inr (List.mem_singleton.mpr rfl)),
              (hchar x).mpr h⟩
        · intro grp hgrp x hx
          rcases List.mem_append.mp hgrp with hgrp | hgrp
          · exact hrmono (Finset.mem_insert_of_mem (hmemvis grp hgrp x hx))
          · rw [List.mem_singleton] at hgrp
            subst hgrp
            exact hrordmem x hx
        · intro grp hgrp
          rcases List.mem_append.mp hgrp with hgrp | hgrp
          · exact hok grp hgrp
          · rw [List.mem_singleton] at hgrp
            subst hgrp
            exact hgrpok
        · rw [hheads_eq]
          refine List.pairwise_append.mpr ⟨hheadsorted, List.pairwise_singleton _ _, ?_⟩
          intro a ha b hb
          rw [List.mem_singleton] at hb
          subst hb
          exact hheadlt a ha b (List.mem_cons_self _ _)
        · rw [hheads_eq]
          intro h hh t ht
          rcases List.mem_append.mp hh with hh | hh
          · exact hheadlt h hh t (List.mem_cons_of_mem s ht)
          · rw [List.mem_singleton] at hh
            subst hh
            exact hs_lt_rest t ht
        · refine List.pairwise_append.mpr ⟨hdisj, List.pairwise_singleton _ _, ?_⟩
          intro g1 hg1 g2 hg2
          rw [List.mem_singleton] at hg2
          subst hg2
          intro x hx hxr
          exact hgrp_fresh x hxr (hmemvis g1 hg1 x hx)

/-- On a valid cache, with the disconnected set enumerated in ascending
order, GroupDetachedCells partitions the disconnected cells into the
connected components of the disconnected-only neighbor relation; the groups
are pairwise disjoint, cover the set, each starts at its smallest member
(its BFS seed), and the start ids come out in ascending order. -/
theorem groupDetachedCells_partition (g : FGridCellCache) (dl : List ℕ)
    (hvalid : ValidCache g) (hlt : ∀ x ∈ dl, x < g.GetTotalCellCount)
    (hsorted : List.Sorted (· < ·) dl) :
    (∀ x ∈ dl, ∃ grp ∈ FCellDestructionSystem.GroupDetachedCells g dl, x ∈ grp) ∧
    (∀ grp ∈ FCellDestructionSystem.GroupDetachedCells g dl, ∀ x ∈ grp, x ∈ dl) ∧
    (∀ grp ∈ FCellDestructionSystem.GroupDetachedCells g dl, GroupOk g dl grp) ∧
    List.Sorted (· < ·) (headsOf (FCellDestructionSystem.GroupDetachedCells g dl)) ∧
    List.Pairwise (fun g1 g2 => ∀ x ∈ g1, x ∉ g2)
      (FCellDestructionSystem.GroupDetachedCells g dl) := by
  unfold FCellDestructionSystem.GroupDetachedCells
  exact groupLoop_master g dl hvalid hlt hsorted dl [] ∅ [] rfl
    (by simp) (by simp) (by simp) (by simp) (by simp) (by simp)
    (by simp [headsOf]) (by simp [headsOf]) List.Pairwise.nil

/-- C4 (amended): on a valid cache, with the disconnected set enumerated in
ascending order, GroupDetachedCells partitions the disconnected cells into
the connected components of the disconnected-only neighbor relation; the
groups are pairwise disjoint, cover the set, each starts at its smallest
member (its BFS seed), and the start ids come out in ascending order.  The
member lists are in BFS discovery order, not sorted ascending. -/
theorem groupDetachedCells_components (g : FGridCellCache) (dl : List ℕ)
    (hvalid : ValidCache g) (hlt : ∀ x ∈ dl, x < g.GetTotalCellCount)
    (hsorted : List.Sorted (· < ·) dl) :
    (∀ x ∈ dl, ∃ grp ∈ FCellDestructionSystem.GroupDetachedCells g dl, x ∈ grp) ∧
    (∀ grp ∈ FCellDestructionSystem.GroupDetachedCells g dl, ∀ x ∈ grp, x ∈ dl) ∧
    (∀ grp ∈ FCellDestructionSystem.GroupDetachedCells g dl, GroupOk g dl grp) ∧
    List.Sorted (· < ·) (headsOf (FCellDestructionSystem.GroupDetachedCells g dl)) ∧
    List.Pairwise (fun g1 g2 => ∀ x ∈ g1, x ∉ g2)
      (FCellDestructionSystem.GroupDetachedCells g dl) :=
  groupDetachedCells_partition g dl hvalid hlt hsorted

/-- Witness for C4 at the anchorless 3 by 3 grid with the center destroyed:
the ring of eight cells forms one component led by cell 0. -/
theorem groupDetachedCells_components_witness :
    (List.Sorted (· < ·) (FCellDestructionSystem.FindDisconnectedCells exCache {4}) ∧
      ∀ x ∈ FCellDestructionSystem.FindDisconnectedCells exCache {4},
        x < exCache.GetTotalCellCount) ∧
    (∀ x ∈ FCellDestructionSystem.FindDisconnectedCells exCache {4},
      ∃ grp ∈ FCellDestructionSystem.GroupDetachedCells exCache
        (FCellDestructionSystem.FindDisconnectedCells exCache {4}), x ∈ grp) ∧
    List.Sorted (· < ·) (headsOf (FCellDestructionSystem.GroupDetachedCells exCache
      (FCellDestructionSystem.FindDisconnectedCells exCache {4}))) := by
  have hvalid : ValidCache exCache := ⟨by decide, by decide, by decide⟩
  have h := groupDetachedCells_components exCache
    (FCellDestructionSystem.FindDisconnectedCells exCache {4}) hvalid
    (by decide) (by decide)
  exact ⟨⟨by decide, by decide⟩, h.1, h.2.2.2.1⟩

/-- Counterexample to C4 as stated: on the 3 by 3 ring, the single group's
member list is the BFS discovery order 0, 1, 3, 2, 6, 5, 7, 8, which is not
sorted in ascending cell-id order. -/
theorem groupDetachedCells_member_order_counterexample :
    FCellDestructionSystem.FindDisconnectedCells exCache {4}
        = [0, 1, 2, 3, 5, 6, 7, 8] ∧
    FCellDestructionSystem.GroupDetachedCells exCache
        (FCellDestructionSystem.FindDisconnectedCells exCache {4})
      = [[0, 1, 3, 2, 6, 5, 7, 8]] ∧
    ¬ List.Sorted (· ≤ ·) [0, 1, 3, 2, 6, 5, 7, 8] :=
  ⟨by decide, by decide, by decide⟩

/-! ## Batch processing: the newly destroyed accumulator -/

theorem addUnique_fold_set (cells : List ℕ) :
    ∀ (acc : List ℕ × Finset ℕ), acc.2 = acc.1.toFinset →
      (cells.foldl (fun a c => if c ∈ a.2 then a else (a.1 ++ [c], insert c a.2)) acc).2
        = (cells.foldl (fun a c => if c ∈ a.2 then a else (a.1 ++ [c], insert c a.2))
            acc).1.toFinset := by
  induction cells with
  | nil =>
      intro acc h
      exact h
  | cons c rest ih =>
      intro acc h
      rw [List.foldl_cons]
      by_cases hc : c ∈ acc.2
      · rw [if_pos hc]
        exact ih acc h
      · rw [if_neg hc]
        refine ih _ ?_
        rw [h]
        ext y
        simp only [Finset.mem_insert, List.toFinset_append, List.toFinset_cons,
          List.toFinset_nil, Finset.mem_union, List.mem_toFinset,
          Finset.not_mem_empty, or_false]
        tauto

theorem addUnique_fold_mem (cells : List ℕ) :
    ∀ (acc : List ℕ × Finset ℕ) (x : ℕ),
      (x ∈ (cells.foldl
          (fun a c => if c ∈ a.2 then a else (a.1 ++ [c], insert c a.2)) acc).2
        ↔ x ∈ acc.2 ∨ x ∈ cells) := by
  induction cells with
  | nil =>
      intro acc x
      simp
  | cons c rest ih =>
      intro acc x
      rw [List.foldl_cons]
      by_cases hc : c ∈ acc.2
      · rw [if_pos hc]
        rw [ih acc x]
        constructor
        · rintro (h | h)
          · exact Or.inl h
          · exact Or.inr (List.mem_cons_of_mem c h)
        · rintro (h | h)
          · exact Or.inl h
          · rcases List.mem_cons.mp h with h | h
            · subst h
              exact Or.inl hc
            · exact Or.inr h
      · rw [if_neg hc]
        rw [ih _ x]
        simp only [Finset.mem_insert, List.mem_cons]
        tauto

theorem batchNewlyDestroyed_set (g : FGridCellCache) (meshTransform : Vec3 → Vec3)
    (env : EngineEnv) (pending : List FQuantizedDestructionInput)
    (destroyedCells : Finset ℕ) :
    (FDestructionBatchProcessor.batchNewlyDestroyed g meshTransform env pending
        destroyedCells).2
      = (FDestructionBatchProcessor.batchNewlyDestroyed g meshTransform env pending
        destroyedCells).1.toFinset := by
  unfold FDestructionBatchProcessor.batchNewlyDestroyed
  have hgen : ∀ (ps : List FQuantizedDestructionInput) (acc : List ℕ × Finset ℕ),
      acc.2 = acc.1.toFinset →
      (ps.foldl (fun acc input =>
        (FCellDestructionSystem.CalculateDestroyedCells g input meshTransform env
          destroyedCells).foldl
          (fun a c => if c ∈ a.2 then a else (a.1 ++ [c], insert c a.2)) acc) acc).2
        = (ps.foldl (fun acc input =>
            (FCellDestructionSystem.CalculateDestroyedCells g input meshTransform env
              destroyedCells).foldl
            (fun a c => if c ∈ a.2 then a else (a.1 ++ [c], insert c a.2)) acc)
          acc).1.toFinset := by
    intro ps
    induction ps with
    | nil => intro acc h; exact h
    | cons p rest ih =>
        intro acc h
        rw [List.foldl_cons]
        exact ih _ (addUnique_fold_set _ acc h)
  exact hgen pending ([], ∅) (by simp)

theorem batchNewlyDestroyed_mem (g : FGridCellCache) (meshTransform : Vec3 → Vec3)
    (env : EngineEnv) (pending : List FQuantizedDestructionInput)
    (destroyedCells : Finset ℕ) (x : ℕ) :
    x ∈ (FDestructionBatchProcessor.batchNewlyDestroyed g meshTransform env pending
        destroyedCells).2 ↔
      ∃ s ∈ pending, x ∈ FCellDestructionSystem.CalculateDestroyedCells g s
        meshTransform env destroyedCells := by
  unfold FDestructionBatchProcessor.batchNewlyDestroyed
  have hgen : ∀ (ps : List FQuantizedDestructionInput) (acc : List ℕ × Finset ℕ),
      (x ∈ (ps.foldl (fun acc input =>
        (FCellDestructionSystem.CalculateDestroyedCells g input meshTransform env
          destroyedCells).foldl
          (fun a c => if c ∈ a.2 then a else (a.1 ++ [c], insert c a.2)) acc) acc).2
        ↔ x ∈ acc.2 ∨ ∃ s ∈ ps, x ∈ FCellDestructionSystem.CalculateDestroyedCells g s
          meshTransform env destroyedCells) := by
    intro ps
    induction ps with
    | nil => intro acc; simp
    | cons p rest ih =>
        intro acc
        rw [List.foldl_cons, ih _]
        rw [addUnique_fold_mem _ acc x]
        constructor
        · rintro ((h | h) | h)
          · exact Or.inl h
          · exact Or.inr ⟨p, List.mem_cons_self p rest, h⟩
          · obtain ⟨s, hs1, hs2⟩ := h
            exact Or.inr ⟨s, List.mem_cons_of_mem p hs1, hs2⟩
        · rintro (h | ⟨s, hs1, hs2⟩)
          · exact Or.inl (Or.inl h)
          · rcases List.mem_cons.mp hs1 with hs1 | hs1
            · subst hs1
              exact Or.inl (Or.inr hs2)
            · exact Or.inr ⟨s, hs1, hs2⟩
  rw [hgen pending ([], ∅)]
  simp

/-- Raw membership in CalculateDestroyedCells. -/
theorem mem_calculateDestroyedCells (g : FGridCellCache)
    (shape : FQuantizedDestructionInput) (meshTransform : Vec3 → Vec3)
    (env : EngineEnv) (destroyedCells : Finset ℕ) (x : ℕ) :
    x ∈ FCellDestructionSystem.CalculateDestroyedCells g shape meshTransform env
        destroyedCells ↔
      x < g.GetTotalCellCount ∧ g.cellExists x = true ∧ x ∉ destroyedCells ∧
        FCellDestructionSystem.IsCellDestroyed g x shape meshTransform env = true := by
  unfold FCellDestructionSystem.CalculateDestroyedCells
  rw [List.mem_filter, List.mem_range]
  simp only [Bool.and_eq_true, decide_eq_true_eq, and_assoc]

theorem mem_hitSet (g : FGridCellCache) (meshTransform : Vec3 → Vec3)
    (env : EngineEnv) (pending : List FQuantizedDestructionInput) (x : ℕ) :
    x ∈ HitSet g meshTransform env pending ↔
      x < g.GetTotalCellCount ∧ g.cellExists x = true ∧
        ∃ s ∈ pending,
          FCellDestructionSystem.IsCellDestroyed g x s meshTransform env = true := by
  unfold HitSet
  rw [Finset.mem_filter, Finset.mem_range]
  rw [List.any_eq_true]

theorem batchNewly_eq_hit_sdiff (g : FGridCellCache) (meshTransform : Vec3 → Vec3)
    (env : EngineEnv) (pending : List FQuantizedDestructionInput)
    (destroyedCells : Finset ℕ) :
    (FDestructionBatchProcessor.batchNewlyDestroyed g meshTransform env pending
        destroyedCells).2
      = HitSet g meshTransform env pending \ destroyedCells := by
  ext x
  rw [batchNewlyDestroyed_mem, Finset.mem_sdiff, mem_hitSet]
  constructor
  · rintro ⟨s, hs1, hs2⟩
    rw [mem_calculateDestroyedCells] at hs2
    exact ⟨⟨hs2.1, hs2.2.1, s, hs1, hs2.2.2.2⟩, hs2.2.2.1⟩
  · rintro ⟨⟨h1, h2, s, hs1, hs2⟩, h3⟩
    refine ⟨s, hs1, ?_⟩
    rw [mem_calculateDestroyedCells]
    exact ⟨h1, h2, h3, hs2⟩

/-! ## Anchor-connectivity algebra -/

theorem anchorConnected_mono (g : FGridCellCache) {S S' : Finset ℕ} (h : S ⊆ S')
    (x : ℕ) : AnchorConnected g S' x → AnchorConnected g S x := by
  rintro ⟨a, ⟨h1, h2, h3, h4⟩, p⟩
  refine ⟨a, ⟨h1, h2, h3, fun hx => h4 (h hx)⟩, ?_⟩
  exact p.mono fun u v hv => ⟨hv.1, fun hm => hv.2 (h hm)⟩

/-- Removing cells that are already disconnected from the anchors does not
change which cells the anchors reach. -/
theorem anchorConnected_union (g : FGridCellCache) (S B : Finset ℕ)
    (hB : ∀ b ∈ B, ¬AnchorConnected g S b) (x : ℕ) :
    AnchorConnected g (S ∪ B) x ↔ AnchorConnected g S x := by
  constructor
  · exact anchorConnected_mono g Finset.subset_union_left x
  · rintro ⟨a, ha, p⟩
    have hA : LiveAnchor g (S ∪ B) a := by
      refine ⟨ha.1, ha.2.1, ha.2.2.1, ?_⟩
      intro hm
      rcases Finset.mem_union.mp hm with hm | hm
      · exact ha.2.2.2 hm
      · exact hB a hm ⟨a, ha, Relation.ReflTransGen.refl⟩
    refine ⟨a, hA, ?_⟩
    induction p with
    | refl => exact Relation.ReflTransGen.refl
    | tail hab hbc ih =>
        refine ih.tail ⟨hbc.1, ?_⟩
        intro hm
        rcases Finset.mem_union.mp hm with hm | hm
        · exact hbc.2 hm
        · exact hB _ hm ⟨a, ha, hab.tail hbc⟩

/-- Blocking a subset of the currently disconnected cells shrinks the
disconnected set by exactly that subset. -/
theorem findDisconnected_union_eq (g : FGridCellCache) (hvalid : ValidCache g)
    (S B : Finset ℕ)
    (hB : B ⊆ (FCellDestructionSystem.FindDisconnectedCells g S).toFinset) :
    (FCellDestructionSystem.FindDisconnectedCells g (S ∪ B)).toFinset
      = (FCellDestructionSystem.FindDisconnectedCells g S).toFinset \ B := by
  have hBprop : ∀ b ∈ B, b < g.GetTotalCellCount ∧ g.cellExists b = true ∧
      b ∉ S ∧ ¬AnchorConnected g S b := fun b hb =>
    (findDisconnectedCells_mem g S hvalid b).mp (List.mem_toFinset.mp (hB hb))
  ext x
  rw [Finset.mem_sdiff, List.mem_toFinset, List.mem_toFinset,
    findDisconnectedCells_mem g (S ∪ B) hvalid x,
    findDisconnectedCells_mem g S hvalid x,
    anchorConnected_union g S B (fun b hb => (hBprop b hb).2.2.2)]
  constructor
  · rintro ⟨h1, h2, h3, h4⟩
    exact ⟨⟨h1, h2, fun hm => h3 (Finset.mem_union_left B hm), h4⟩,
      fun hm => h3 (Finset.mem_union_right S hm)⟩
  · rintro ⟨⟨h1, h2, h3, h4⟩, h5⟩
    exact ⟨h1, h2, fun hm => (Finset.mem_union.mp hm).elim h3 h5, h4⟩

theorem hitSet_append (g : FGridCellCache) (meshTransform : Vec3 → Vec3)
    (env : EngineEnv) (ss1 ss2 : List FQuantizedDestructionInput) :
    HitSet g meshTransform env (ss1 ++ ss2)
      = HitSet g meshTransform env ss1 ∪ HitSet g meshTransform env ss2 := by
  ext x
  rw [Finset.mem_union, mem_hitSet, mem_hitSet, mem_hitSet]
  constructor
  · rintro ⟨h1, h2, s, hs, hd⟩
    rcases List.mem_append.mp hs with hs | hs
    · exact Or.inl ⟨h1, h2, s, hs, hd⟩
    · exact Or.inr ⟨h1, h2, s, hs, hd⟩
  · rintro (⟨h1, h2, s, hs, hd⟩ | ⟨h1, h2, s, hs, hd⟩)
    · exact ⟨h1, h2, s, List.mem_append.mpr (Or.inl hs), hd⟩
    · exact ⟨h1, h2, s, List.mem_append.mpr (Or.inr hs), hd⟩

theorem foldUnion_mem (groups : List (List ℕ)) :
    ∀ (base : Finset ℕ) (x : ℕ),
      x ∈ groups.foldl (fun s grp => s ∪ grp.toFinset) base ↔
        x ∈ base ∨ ∃ grp ∈ groups, x ∈ grp := by
  induction groups with
  | nil =>
      intro base x
      simp
  | cons grp rest ih =>
      intro base x
      rw [List.foldl_cons, ih]
      simp only [Finset.mem_union, List.mem_toFinset, List.mem_cons]
      constructor
      · rintro ((h | h) | ⟨l, hl, hx⟩)
        · exact Or.inl h
        · exact Or.inr ⟨grp, Or.inl rfl, h⟩
        · exact Or.inr ⟨l, Or.inr hl, hx⟩
      · rintro (h | ⟨l, hl | hl, hx⟩)
        · exact Or.inl (Or.inl h)
        · subst hl
          exact Or.inl (Or.inr hx)
        · exact Or.inr ⟨l, hl, hx⟩

/-- Bridge: the destroyed set produced by one ProcessBatch call is the
declarative batch step. -/
theorem processBatch_state_eq (g : FGridCellCache) (meshTransform : Vec3 → Vec3)
    (env : EngineEnv) (hvalid : ValidCache g)
    (pending : List FQuantizedDestructionInput) (destroyedCells : Finset ℕ)
    (debrisIdCounter : ℕ) :
    (FDestructionBatchProcessor.ProcessBatch g meshTransform env pending
        destroyedCells debrisIdCounter).1
      = batchStepSet g meshTransform env pending destroyedCells := by
  have hset := batchNewlyDestroyed_set g meshTransform env pending destroyedCells
  have hsdiff := batchNewly_eq_hit_sdiff g meshTransform env pending destroyedCells
  unfold FDestructionBatchProcessor.ProcessBatch batchStepSet
  by_cases hemp : (FDestructionBatchProcessor.batchNewlyDestroyed g meshTransform env
      pending destroyedCells).1 = []
  · rw [if_pos hemp]
    have h2 : HitSet g meshTransform env pending \ destroyedCells = ∅ := by
      rw [← hsdiff, hset, hemp]
      simp
    rw [if_pos h2]
  · rw [if_neg hemp]
    have h2 : HitSet g meshTransform env pending \ destroyedCells ≠ ∅ := by
      rw [← hsdiff, hset]
      intro hcontra
      rw [List.toFinset_eq_empty_iff] at hcontra
      exact hemp hcontra
    rw [if_neg h2]
    simp only
    have hD1 : destroyedCells ∪ (FDestructionBatchProcessor.batchNewlyDestroyed g
        meshTransform env pending destroyedCells).2
        = destroyedCells ∪ HitSet g meshTransform env pending := by
      rw [hsdiff, Finset.union_sdiff_self_eq_union]
    rw [hD1]
    have hsorted := findDisconnectedCells_sorted g
      (destroyedCells ∪ HitSet g meshTransform env pending)
    have hlt := findDisconnectedCells_lt g
      (destroyedCells ∪ HitSet g meshTransform env pending)
    obtain ⟨hcov, hsub, -, -, -⟩ := groupDetachedCells_partition g
      (FCellDestructionSystem.FindDisconnectedCells g
        (destroyedCells ∪ HitSet g meshTransform env pending)) hvalid hlt hsorted
    ext x
    rw [foldUnion_mem]
    rw [Finset.mem_union, Finset.mem_union, Finset.mem_union, List.mem_toFinset]
    constructor
    · rintro (h | ⟨grp, hg, hx⟩)
      · exact Or.inl h
      · exact Or.inr (hsub grp hg x hx)
    · rintro (h | h)
      · exact Or.inl h
      · obtain ⟨grp, hg, hx⟩ := hcov x h
        exact Or.inr ⟨grp, hg, hx⟩

/-- Batch composition: running the declarative batch step on a concatenation
equals running it on the pieces in order. -/
theorem batchStepSet_append (g : FGridCellCache) (meshTransform : Vec3 → Vec3)
    (env : EngineEnv) (hvalid : ValidCache g)
    (ss1 ss2 : List FQuantizedDestructionInput) (D : Finset ℕ) :
    batchStepSet g meshTransform env (ss1 ++ ss2) D
      = batchStepSet g meshTransform env ss2
          (batchStepSet g meshTransform env ss1 D) := by
  by_cases hA : HitSet g meshTransform env ss1 \ D = ∅
  · have hsub : HitSet g meshTransform env ss1 ⊆ D :=
      Finset.sdiff_eq_empty_iff_subset.mp hA
    have hinner : batchStepSet g meshTransform env ss1 D = D := by
      unfold batchStepSet
      rw [if_pos hA]
    rw [hinner]
    have hHeq : HitSet g meshTransform env (ss1 ++ ss2) \ D
        = HitSet g meshTransform env ss2 \ D := by
      rw [hitSet_append, Finset.union_sdiff_distrib, hA, Finset.empty_union]
    have hUeq : D ∪ HitSet g meshTransform env (ss1 ++ ss2)
        = D ∪ HitSet g meshTransform env ss2 := by
      rw [hitSet_append, ← Finset.union_assoc, Finset.union_eq_left.mpr hsub]
    unfold batchStepSet
    rw [hHeq, hUeq]
  · have hA' : HitSet g meshTransform env (ss1 ++ ss2) \ D ≠ ∅ := by
      rw [hitSet_append, Finset.union_sdiff_distrib]
      intro hcontra
      exact hA (Finset.union_eq_empty.mp hcontra).1
    have hDH : D ∪ (HitSet g meshTransform env ss1 ∪ HitSet g meshTransform env ss2)
        = D ∪ HitSet g meshTransform env ss1 ∪ HitSet g meshTransform env ss2 :=
      (Finset.union_assoc _ _ _).symm
    have houter : batchStepSet g meshTransform env (ss1 ++ ss2) D
        = D ∪ HitSet g meshTransform env ss1 ∪ HitSet g meshTransform env ss2 ∪
          (FCellDestructionSystem.FindDisconnectedCells g
            (D ∪ HitSet g meshTransform env ss1 ∪
              HitSet g meshTransform env ss2)).toFinset := by
      unfold batchStepSet
      rw [if_neg hA', hitSet_append, hDH]
    have hinner : batchStepSet g meshTransform env ss1 D
        = D ∪ HitSet g meshTransform env ss1 ∪
          (FCellDestructionSystem.FindDisconnectedCells g
            (D ∪ HitSet g meshTransform env ss1)).toFinset := by
      unfold batchStepSet
      rw [if_neg hA]
    rw [houter, hinner]
    by_cases hB1 : HitSet g meshTransform env ss2 \
        (D ∪ HitSet g meshTransform env ss1 ∪
          (FCellDestructionSystem.FindDisconnectedCells g
            (D ∪ HitSet g meshTransform env ss1)).toFinset) = ∅
    · have hstep2 : batchStepSet g meshTransform env ss2
          (D ∪ HitSet g meshTransform env ss1 ∪
            (FCellDestructionSystem.FindDisconnectedCells g
              (D ∪ HitSet g meshTransform env ss1)).toFinset)
          = D ∪ HitSet g meshTransform env ss1 ∪
            (FCellDestructionSystem.FindDisconnectedCells g
              (D ∪ HitSet g meshTransform env ss1)).toFinset := by
        unfold batchStepSet
        rw [if_pos hB1]
      rw [hstep2]
      have hsub2 : HitSet g meshTransform env ss2 ⊆
          D ∪ HitSet g meshTransform env ss1 ∪
            (FCellDestructionSystem.FindDisconnectedCells g
              (D ∪ HitSet g meshTransform env ss1)).toFinset :=
        Finset.sdiff_eq_empty_iff_subset.mp hB1
      have hBsub : HitSet g meshTransform env ss2 \
          (D ∪ HitSet g meshTransform env ss1) ⊆
          (FCellDestructionSystem.FindDisconnectedCells g
            (D ∪ HitSet g meshTransform env ss1)).toFinset := by
        intro b hb
        rw [Finset.mem_sdiff] at hb
        rcases Finset.mem_union.mp (hsub2 hb.1) with h | h
        · exact absurd h hb.2
        · exact h
      have hSH : D ∪ HitSet g meshTransform env ss1 ∪ HitSet g meshTransform env ss2
          = (D ∪ HitSet g meshTransform env ss1) ∪
            (HitSet g meshTransform env ss2 \ (D ∪ HitSet g meshTransform env ss1)) :=
        (Finset.union_sdiff_self_eq_union).symm
      rw [hSH, findDisconnected_union_eq g hvalid _ _ hBsub]
      have hIx : ∀ y ∈ HitSet g meshTransform env ss2 \
          (D ∪ HitSet g meshTransform env ss1),
          y ∈ (FCellDestructionSystem.FindDisconnectedCells g
            (D ∪ HitSet g meshTransform env ss1)).toFinset := fun y hy => hBsub hy
      ext x
      simp only [Finset.mem_union, Finset.mem_sdiff]
      constructor
      · rintro (h | ⟨h1, -⟩)
        · rcases h with h | h
          · exact Or.inl h
          · exact Or.inr (by
              have := hIx x (Finset.mem_sdiff.mpr (by
                simp only [Finset.mem_union]
                exact ⟨h.1, h.2⟩))
              exact this)
        · exact Or.inr h1
      · rintro (h | h)
        · exact Or.inl (Or.inl h)
        · by_cases hb : x ∈ HitSet g meshTransform env ss2 ∧
              ¬(x ∈ D ∨ x ∈ HitSet g meshTransform env ss1)
          · exact Or.inl (Or.inr hb)
          · exact Or.inr ⟨h, hb⟩
    · have hstep2 : batchStepSet g meshTransform env ss2
          (D ∪ HitSet g meshTransform env ss1 ∪
            (FCellDestructionSystem.FindDisconnectedCells g
              (D ∪ HitSet g meshTransform env ss1)).toFinset)
          = D ∪ HitSet g meshTransform env ss1 ∪
            (FCellDestructionSystem.FindDisconnectedCells g
              (D ∪ HitSet g meshTransform env ss1)).toFinset ∪
            HitSet g meshTransform env ss2 ∪
            (FCellDestructionSystem.FindDisconnectedCells g
              (D ∪ HitSet g meshTransform env ss1 ∪
                (FCellDestructionSystem.FindDisconnectedCells g
                  (D ∪ HitSet g meshTransform env ss1)).toFinset ∪
                HitSet g meshTransform env ss2)).toFinset := by
        unfold batchStepSet
        rw [if_neg hB1]
      rw [hstep2]
      have hBsubdisc : (FCellDestructionSystem.FindDisconnectedCells g
            (D ∪ HitSet g meshTransform env ss1)).toFinset \
          (D ∪ HitSet g meshTransform env ss1 ∪ HitSet g meshTransform env ss2) ⊆
          (FCellDestructionSystem.FindDisconnectedCells g
            (D ∪ HitSet g meshTransform env ss1 ∪
              HitSet g meshTransform env ss2)).toFinset := by
        intro b hb
        rw [Finset.mem_sdiff] at hb
        obtain ⟨hb1, hb2⟩ := hb
        rw [List.mem_toFinset,
          findDisconnectedCells_mem g (D ∪ HitSet g meshTransform env ss1) hvalid b]
          at hb1
        rw [List.mem_toFinset,
          findDisconnectedCells_mem g
            (D ∪ HitSet g meshTransform env ss1 ∪ HitSet g meshTransform env ss2)
            hvalid b]
        refine ⟨hb1.1, hb1.2.1, hb2, ?_⟩
        intro hc
        exact hb1.2.2.2 (anchorConnected_mono g Finset.subset_union_left b hc)
      have hRHSunion : D ∪ HitSet g meshTransform env ss1 ∪
          (FCellDestructionSystem.FindDisconnectedCells g
            (D ∪ HitSet g meshTransform env ss1)).toFinset ∪
          HitSet g meshTransform env ss2
          = (D ∪ HitSet g meshTransform env ss1 ∪ HitSet g meshTransform env ss2) ∪
            ((FCellDestructionSystem.FindDisconnectedCells g
              (D ∪ HitSet g meshTransform env ss1)).toFinset \
              (D ∪ HitSet g meshTransform env ss1 ∪
                HitSet g meshTransform env ss2)) := by
        ext x
        simp only [Finset.mem_union, Finset.mem_sdiff]
        constructor
        · rintro ((h | h) | h)
          · rcases h with h | h
            · exact Or.inl (Or.inl (Or.inl h))
            · exact Or.inl (Or.inl (Or.inr h))
          · by_cases ht : x ∈ D ∨ x ∈ HitSet g meshTransform env ss1 ∨
                x ∈ HitSet g meshTransform env ss2
            · rcases ht with ht | ht | ht
              · exact Or.inl (Or.inl (Or.inl ht))
              · exact Or.inl (Or.inl (Or.inr ht))
              · exact Or.inl (Or.inr ht)
            · refine Or.inr ⟨h, fun hm => ht ?_⟩
              rcases hm with hm | hm
              · rcases hm with hm | hm
                · exact Or.inl hm
                · exact Or.inr (Or.inl hm)
              · exact Or.inr (Or.inr hm)
          · exact Or.inl (Or.inr h)
        · rintro ((h | h) | ⟨h1, -⟩)
          · rcases h with h | h
            · exact Or.inl (Or.inl (Or.inl h))
            · exact Or.inl (Or.inl (Or.inr h))
          · exact Or.inr h
          · exact Or.inl (Or.inr h1)
      rw [hRHSunion, findDisconnected_union_eq g hvalid _ _ hBsubdisc]
      ext x
      simp only [Finset.mem_union, Finset.mem_sdiff]
      constructor
      · rintro ((h | h) | h)
        · rcases h with h | h
          · exact Or.inl (Or.inl (Or.inl (Or.inl h)))
          · exact Or.inl (Or.inl (Or.inl (Or.inr h)))
        · exact Or.inl (Or.inl (Or.inr h))
        · by_cases hb : x ∈ (FCellDestructionSystem.FindDisconnectedCells g
              (D ∪ HitSet g meshTransform env ss1)).toFinset ∧
              ¬((x ∈ D ∨ x ∈ HitSet g meshTransform env ss1) ∨
                x ∈ HitSet g meshTransform env ss2)
          · exact Or.inl (Or.inr hb)
          · exact Or.inr ⟨h, hb⟩
      · rintro ((h | ⟨h1, h2⟩) | ⟨h1, -⟩)
        · exact Or.inl h
        · refine Or.inr (hBsubdisc (Finset.mem_sdiff.mpr ⟨h1, ?_⟩))
          simp only [Finset.mem_union]
          exact h2
        · exact Or.inr h1

/-- The hit set of an empty batch is empty. -/
theorem hitSet_nil (g : FGridCellCache) (meshTransform : Vec3 → Vec3)
    (env : EngineEnv) : HitSet g meshTransform env [] = ∅ := by
  unfold HitSet
  apply Finset.filter_false_of_mem
  intro c _
  simp

/-- The declarative batch step on a list equals folding the single-input
batch step over the list in order. -/
theorem batchStepSet_foldl (g : FGridCellCache) (meshTransform : Vec3 → Vec3)
    (env : EngineEnv) (hvalid : ValidCache g)
    (pending : List FQuantizedDestructionInput) (D : Finset ℕ) :
    batchStepSet g meshTransform env pending D
      = pending.foldl (fun d s => batchStepSet g meshTransform env [s] d) D := by
  induction pending generalizing D with
  | nil =>
      rw [List.foldl_nil]
      unfold batchStepSet
      rw [hitSet_nil]
      simp
  | cons s ss ih =>
      have h := batchStepSet_append g meshTransform env hvalid [s] ss D
      rw [List.singleton_append] at h
      rw [List.foldl_cons, h, ih]

/-- C2: batching equivalence.  For every valid grid cache, mesh transform,
rotation model, initial destroyed set and ordered list of quantized impact
inputs, running ProcessBatch once on the whole list produces the same final
destroyed-cell set as running a single-impact ProcessBatch for each input
sequentially in the same order (the emitted debris events and counters may
differ; the final destroyed set matches). -/
theorem processBatch_batching_equivalence (g : FGridCellCache)
    (meshTransform : Vec3 → Vec3) (env : EngineEnv) (hvalid : ValidCache g)
    (pending : List FQuantizedDestructionInput) (destroyedCells : Finset ℕ)
    (debrisIdCounter : ℕ) :
    (FDestructionBatchProcessor.ProcessBatch g meshTransform env pending
        destroyedCells debrisIdCounter).1
      = pending.foldl
          (fun d s =>
            (FDestructionBatchProcessor.ProcessBatch g meshTransform env [s] d 0).1)
          destroyedCells := by
  have hfun : (fun (d : Finset ℕ) (s : FQuantizedDestructionInput) =>
      (FDestructionBatchProcessor.ProcessBatch g meshTransform env [s] d 0).1)
      = fun d s => batchStepSet g meshTransform env [s] d := by
    funext d s
    exact processBatch_state_eq g meshTransform env hvalid [s] d 0
  rw [processBatch_state_eq g meshTransform env hvalid pending destroyedCells
    debrisIdCounter, hfun]
  exact batchStepSet_foldl g meshTransform env hvalid pending destroyedCells

/-- Witness for C2: two identical spheres on the anchored 3 by 3 grid,
batched together versus processed one after the other. -/
theorem processBatch_batching_equivalence_witness :
    (FDestructionBatchProcessor.ProcessBatch anCache idTransform idEnv
        [exSphere, exSphere] ∅ 0).1
      = [exSphere, exSphere].foldl
          (fun d s =>
            (FDestructionBatchProcessor.ProcessBatch anCache idTransform idEnv
              [s] d 0).1) ∅ :=
  processBatch_batching_equivalence anCache idTransform idEnv
    ⟨by decide, by decide, by decide⟩ [exSphere, exSphere] ∅ 0

/-- On an empty newly-destroyed list, ProcessBatch returns the state
unchanged with an empty event. -/
theorem processBatch_empty_eq (g : FGridCellCache) (meshTransform : Vec3 → Vec3)
    (env : EngineEnv) (pending : List FQuantizedDestructionInput)
    (destroyedCells : Finset ℕ) (debrisIdCounter : ℕ)
    (hemp : (FDestructionBatchProcessor.batchNewlyDestroyed g meshTransform env
      pending destroyedCells).1 = []) :
    FDestructionBatchProcessor.ProcessBatch g meshTransform env pending
        destroyedCells debrisIdCounter
      = (destroyedCells, ⟨pending, [], []⟩, debrisIdCounter) := by
  unfold FDestructionBatchProcessor.ProcessBatch
  rw [if_pos hemp]

/-- On a nonempty newly-destroyed list, the event's destroyed-id list is the
newly destroyed ids followed by the flattened group members, all narrowed by
wrapInt16. -/
theorem processBatch_eventIds_eq (g : FGridCellCache) (meshTransform : Vec3 → Vec3)
    (env : EngineEnv) (pending : List FQuantizedDestructionInput)
    (destroyedCells : Finset ℕ) (debrisIdCounter : ℕ)
    (hemp : (FDestructionBatchProcessor.batchNewlyDestroyed g meshTransform env
      pending destroyedCells).1 ≠ []) :
    (FDestructionBatchProcessor.ProcessBatch g meshTransform env pending
        destroyedCells debrisIdCounter).2.1.destroyedCellIds
      = ((FDestructionBatchProcessor.batchNewlyDestroyed g meshTransform env
          pending destroyedCells).1.map fun c : ℕ => wrapInt16 (c : ℤ)) ++
        ((FCellDestructionSystem.GroupDetachedCells g
          (FCellDestructionSystem.FindDisconnectedCells g
            (destroyedCells ∪ (FDestructionBatchProcessor.batchNewlyDestroyed g
              meshTransform env pending destroyedCells).2))).map
          fun grp => grp.map fun c : ℕ => wrapInt16 (c : ℤ)).flatten := by
  unfold FDestructionBatchProcessor.ProcessBatch
  rw [if_neg hemp]

/-- On a nonempty newly-destroyed list, the event's debris entries index the
groups and carry the group members narrowed by wrapInt16. -/
theorem processBatch_debris_eq (g : FGridCellCache) (meshTransform : Vec3 → Vec3)
    (env : EngineEnv) (pending : List FQuantizedDestructionInput)
    (destroyedCells : Finset ℕ) (debrisIdCounter : ℕ)
    (hemp : (FDestructionBatchProcessor.batchNewlyDestroyed g meshTransform env
      pending destroyedCells).1 ≠ []) :
    (FDestructionBatchProcessor.ProcessBatch g meshTransform env pending
        destroyedCells debrisIdCounter).2.1.detachedDebris
      = (List.range (FCellDestructionSystem.GroupDetachedCells g
          (FCellDestructionSystem.FindDisconnectedCells g
            (destroyedCells ∪ (FDestructionBatchProcessor.batchNewlyDestroyed g
              meshTransform env pending destroyedCells).2))).length).map
          fun i =>
            ({ debrisId := debrisIdCounter + i + 1
               cellIds := ((FCellDestructionSystem.GroupDetachedCells g
                 (FCellDestructionSystem.FindDisconnectedCells g
                   (destroyedCells ∪ (FDestructionBatchProcessor.batchNewlyDestroyed g
                     meshTransform env pending destroyedCells).2))).getD i []).map
                 fun c : ℕ => wrapInt16 (c : ℤ)
               initialLocation := FCellDestructionSystem.CalculateGroupCenter g
                 ((FCellDestructionSystem.GroupDetachedCells g
                   (FCellDestructionSystem.FindDisconnectedCells g
                     (destroyedCells ∪ (FDestructionBatchProcessor.batchNewlyDestroyed g
                       meshTransform env pending destroyedCells).2))).getD i [])
                 meshTransform } : FDetachedDebrisInfo) := by
  unfold FDestructionBatchProcessor.ProcessBatch
  rw [if_neg hemp]

/-- On a nonempty newly-destroyed list, the returned destroyed set is the
initial set plus the newly destroyed cells plus every group member. -/
theorem processBatch_finalSet_eq (g : FGridCellCache) (meshTransform : Vec3 → Vec3)
    (env : EngineEnv) (pending : List FQuantizedDestructionInput)
    (destroyedCells : Finset ℕ) (debrisIdCounter : ℕ)
    (hemp : (FDestructionBatchProcessor.batchNewlyDestroyed g meshTransform env
      pending destroyedCells).1 ≠ []) :
    (FDestructionBatchProcessor.ProcessBatch g meshTransform env pending
        destroyedCells debrisIdCounter).1
      = (FCellDestructionSystem.GroupDetachedCells g
          (FCellDestructionSystem.FindDisconnectedCells g
            (destroyedCells ∪ (FDestructionBatchProcessor.batchNewlyDestroyed g
              meshTransform env pending destroyedCells).2))).foldl
          (fun s grp => s ∪ grp.toFinset)
          (destroyedCells ∪ (FDestructionBatchProcessor.batchNewlyDestroyed g
            meshTransform env pending destroyedCells).2) := by
  unfold FDestructionBatchProcessor.ProcessBatch
  rw [if_neg hemp]

/-- C10: int16 narrowing of the batch event.  Every cell id emitted in the
event's DestroyedCellIds and in every debris CellIds list is the int16
reduction wrapInt16 of a cell of the final destroyed set; wrapInt16 is
reduction modulo 2^16 into the signed 16-bit range, and any true id of
32768 or larger is not emitted faithfully, even though the returned
destroyed set keeps the full id. -/
theorem processBatch_int16_narrowing (g : FGridCellCache)
    (meshTransform : Vec3 → Vec3) (env : EngineEnv)
    (pending : List FQuantizedDestructionInput) (destroyedCells : Finset ℕ)
    (debrisIdCounter : ℕ) :
    (∀ e ∈ (FDestructionBatchProcessor.ProcessBatch g meshTransform env pending
        destroyedCells debrisIdCounter).2.1.destroyedCellIds,
      ∃ c : ℕ, c ∈ (FDestructionBatchProcessor.ProcessBatch g meshTransform env
          pending destroyedCells debrisIdCounter).1 ∧ e = wrapInt16 (c : ℤ)) ∧
    (∀ dbr ∈ (FDestructionBatchProcessor.ProcessBatch g meshTransform env pending
        destroyedCells debrisIdCounter).2.1.detachedDebris, ∀ e ∈ dbr.cellIds,
      ∃ c : ℕ, c ∈ (FDestructionBatchProcessor.ProcessBatch g meshTransform env
          pending destroyedCells debrisIdCounter).1 ∧ e = wrapInt16 (c : ℤ)) ∧
    (∀ z : ℤ, wrapInt16 z = (z + 2 ^ 15) % 2 ^ 16 - 2 ^ 15 ∧
      -2 ^ 15 ≤ wrapInt16 z ∧ wrapInt16 z < 2 ^ 15 ∧
      (wrapInt16 z - z) % 2 ^ 16 = 0) ∧
    (∀ t : ℤ, 2 ^ 15 ≤ t → wrapInt16 t ≠ t) := by
  have hset := batchNewlyDestroyed_set g meshTransform env pending destroyedCells
  refine ⟨?_, ?_, fun z => ⟨rfl, (wrapInt16_facts z).2.1, (wrapInt16_facts z).2.2,
    (wrapInt16_facts z).1⟩, fun t ht => wrapInt16_ne_self ht⟩
  · by_cases hemp : (FDestructionBatchProcessor.batchNewlyDestroyed g meshTransform
        env pending destroyedCells).1 = []
    · intro e he
      rw [processBatch_empty_eq g meshTransform env pending destroyedCells
        debrisIdCounter hemp] at he
      simp at he
    · intro e he
      rw [processBatch_eventIds_eq g meshTransform env pending destroyedCells
        debrisIdCounter hemp] at he
      rw [processBatch_finalSet_eq g meshTransform env pending destroyedCells
        debrisIdCounter hemp]
      rcases List.mem_append.mp he with he | he
      · obtain ⟨c, hc, rfl⟩ := List.mem_map.mp he
        refine ⟨c, ?_, rfl⟩
        rw [foldUnion_mem]
        refine Or.inl (Finset.mem_union_right _ ?_)
        rw [hset]
        exact List.mem_toFinset.mpr hc
      · obtain ⟨l, hl, hel⟩ := List.mem_flatten.mp he
        obtain ⟨grp, hgrp, rfl⟩ := List.mem_map.mp hl
        obtain ⟨c, hc, rfl⟩ := List.mem_map.mp hel
        refine ⟨c, ?_, rfl⟩
        rw [foldUnion_mem]
        exact Or.inr ⟨grp, hgrp, hc⟩
  · by_cases hemp : (FDestructionBatchProcessor.batchNewlyDestroyed g meshTransform
        env pending destroyedCells).1 = []
    · intro dbr hdbr
      rw [processBatch_empty_eq g meshTransform env pending destroyedCells
        debrisIdCounter hemp] at hdbr
      simp at hdbr
    · intro dbr hdbr e he
      rw [processBatch_debris_eq g meshTransform env pending destroyedCells
        debrisIdCounter hemp] at hdbr
      obtain ⟨i, hi, rfl⟩ := List.mem_map.mp hdbr
      rw [List.mem_range] at hi
      obtain ⟨c, hc, rfl⟩ := List.mem_map.mp he
      refine ⟨c, ?_, rfl⟩
      rw [processBatch_finalSet_eq g meshTransform env pending destroyedCells
        debrisIdCounter hemp, foldUnion_mem]
      refine Or.inr ⟨(FCellDestructionSystem.GroupDetachedCells g
        (FCellDestructionSystem.FindDisconnectedCells g
          (destroyedCells ∪ (FDestructionBatchProcessor.batchNewlyDestroyed g
            meshTransform env pending destroyedCells).2))).getD i [], ?_, hc⟩
      rw [List.getD_eq_getElem _ _ hi]
      exact List.getElem_mem hi

/-- Witness for C10: the narrowing arithmetic at the out-of-range id 40000,
drawn from the theorem applied to a concrete batch. -/
theorem processBatch_int16_narrowing_witness :
    2 ^ 15 ≤ (40000 : ℤ) ∧ wrapInt16 (40000 : ℤ) ≠ (40000 : ℤ) :=
  ⟨by decide, (processBatch_int16_narrowing anCache idTransform idEnv [exSphere]
    ∅ 0).2.2.2 40000 (by decide)⟩

end RealtimeDestruction

